import Mathlib

/-!
# putio-cli: fan-out/collect command handlers and size formatting

A shallow embedding of `cli/commands.go` and `cli/cli.go`.

* Remote calls are an oracle (`Remote`): each call is a function of its arguments.
* Goroutines that write to an unbuffered channel are modelled by the list of values they
  send (in launch order) and a `Runtime` that fixes the order in which those values
  arrive at the receiver.  A receive loop of `n` iterations consumes the first `n`
  arrivals; when fewer than `n` values are ever sent the loop blocks forever
  (`Outcome.blocked`).
* A Go `map[int64]string` is an association list with unique keys.  Go leaves the
  iteration order of a map unspecified, and it may differ from one `range` loop to the
  next; the `Runtime` fixes the order of each `range` loop.
* `float64` arithmetic in `ByteCountSI` is modelled exactly (IEEE 754 binary64,
  round to nearest, ties to even) on non-negative values.
-/

namespace PutioCli

/-! ## Library functions used by the source -/

/-- Value of a string of decimal digits. -/
def digitsValue (cs : List Char) : Nat :=
  cs.foldl (fun acc c => acc * 10 + (c.toNat - 48)) 0

/-- The digit loop of `strconv.ParseUint(s, 10, 64)`: empty input and any non-digit are errors. -/
def parseUint (cs : List Char) : Option Nat :=
  if cs.isEmpty then none
  else if cs.all Char.isDigit then some (digitsValue cs) else none

/-- Go `strconv.ParseInt(s, 10, 64)`; `none` stands for a non-nil error
(empty string, a character that is not a digit, value outside int64). -/
def ParseInt (s : String) : Option Int :=
  match s.toList with
  | [] => none
  | c :: rest =>
    if c = '+' then
      match parseUint rest with
      | some n => if n < 2 ^ 63 then some (n : Int) else none
      | none => none
    else if c = '-' then
      match parseUint rest with
      | some n => if n ≤ 2 ^ 63 then some (-(n : Int)) else none
      | none => none
    else
      match parseUint (c :: rest) with
      | some n => if n < 2 ^ 63 then some (n : Int) else none
      | none => none

/-- What the code reads from a parsed `*url.URL`: its `Scheme` field and the text
returned by its `String()` method. -/
structure URL where
  Scheme : String
  Text : String
deriving DecidableEq

/-- A colour of `fatih/color`: `SprintFunc` wraps its argument between two escape
sequences, both empty when `color.NoColor` is set. -/
structure Paint where
  pre : String
  post : String

/-- Application of a colour function to a string. -/
def Paint.apply (p : Paint) (s : String) : String := p.pre ++ s ++ p.post

/-- The six colour functions declared in `cli.go`. -/
structure Palette where
  boldBlue : Paint
  boldYellow : Paint
  yellow : Paint
  red : Paint
  white : Paint
  boldWhite : Paint

/-- The palette when `color.NoColor` is true. -/
def Palette.plain : Palette :=
  ⟨⟨"", ""⟩, ⟨"", ""⟩, ⟨"", ""⟩, ⟨"", ""⟩, ⟨"", ""⟩, ⟨"", ""⟩⟩

/-! ## Data model -/

/-- The fields of `putio.File` that the commands read. -/
structure File where
  ID : Int
  Name : String
  Size : Int
  IsDir : Bool
deriving DecidableEq

/-- An error of a remote call: `*putio.ErrorResponse` with its message, or any other error. -/
inductive RemoteError where
  | response (message : String)
  | other (text : String)
deriving DecidableEq

/-- Errors a command can return. -/
inductive CliError where
  | ErrPutioTokenRequired
  | ErrPutioTokenInvalid
  | ErrMissingArgs
  | remote (e : RemoteError)
  | numError (arg : String)
deriving DecidableEq

/-- The remote API client (`a.Client`). -/
structure Remote where
  filesGet : Int → Except RemoteError File
  filesDelete : List Int → Option RemoteError
  filesMove : Int → List Int → Option RemoteError
  filesList : Int → Except RemoteError (List File × File)
  filesURL : Int → Bool → Except RemoteError String
  transfersAdd : String → Int → String → Except RemoteError String

/-- The struct `resultsChannel`. -/
structure resultsChannel where
  message : String
  err : Option RemoteError
deriving DecidableEq

/-- Observable actions of a command, in program order (calls made by goroutines are
listed in launch order). `flagDefaults name` is `PrintDefaults()` of the flag set `name`;
`flagFailure name` is what the flag package writes when `Parse` of the flag set `name`
fails or is asked for help. -/
inductive Effect where
  | get (id : Int)
  | delete (ids : List Int)
  | move (target : Int) (ids : List Int)
  | list (folder : Int)
  | url (id : Int)
  | addTransfer (u : String)
  | out (s : String)
  | stdout (s : String)
  | table (header : List String) (rows : List (List String))
  | flagDefaults (name : String)
  | flagFailure (name : String)
deriving DecidableEq

/-- How a call ends: it returns, it blocks forever on a channel receive (the Go runtime may
then abort the process with a deadlock error; either way the call never returns), or it
panics. -/
inductive Outcome (α : Type) where
  | returned (a : α)
  | blocked
  | panicked
deriving DecidableEq

/-- An execution of a command: what it did and how it ended (`none` is a nil error). -/
structure Execution where
  effects : List Effect
  result : Outcome (Option CliError)
deriving DecidableEq

/-! ## Channels and map iteration -/

/-- The choices the Go runtime makes during one execution: `arrival` is the order in which
values sent by concurrently running goroutines reach the receiver, `mapRange i` is the
order in which the `i`-th `range` loop of a command visits the entries of a map. -/
structure Runtime where
  arrival : (α : Type) → List α → List α
  mapRange : Nat → List (Int × String) → List (Int × String)

/-- Every sent value is delivered exactly once and a `range` loop visits every entry
exactly once. -/
def Runtime.Fair (rt : Runtime) : Prop :=
  (∀ (α : Type) (l : List α), (rt.arrival α l).Perm l) ∧
    ∀ (i : Nat) (m : List (Int × String)), (rt.mapRange i m).Perm m

/-- Results arrive in launch order, maps are visited in insertion order. -/
def Runtime.inOrder : Runtime := ⟨fun _ l => l, fun _ m => m⟩

/-- Results arrive in the reverse of launch order, maps are visited in reverse insertion
order. -/
def Runtime.reversed : Runtime := ⟨fun _ l => l.reverse, fun _ m => m.reverse⟩

/-- A loop of `n` receives on a channel on which `arrivals` is everything that will ever
be sent: `none` when the loop blocks forever. -/
def recv {α : Type} (n : Nat) (arrivals : List α) : Option (List α) :=
  if n ≤ arrivals.length then some (arrivals.take n) else none

/-! ## Maps -/

/-- A Go `map[int64]string`. -/
abbrev FileMap := List (Int × String)

/-- The assignment `m[k] = v`. -/
def FileMap.set : FileMap → Int → String → FileMap
  | [], k, v => [(k, v)]
  | (k0, v0) :: rest, k, v =>
    if k0 = k then (k, v) :: rest else (k0, v0) :: FileMap.set rest k v

/-- The read `m[k]`, the empty string when the key is absent. -/
def FileMap.get (m : FileMap) (k : Int) : String := (m.lookup k).getD ""

/-- The keys of a list of map entries. -/
def FileMap.keys (m : FileMap) : List Int := m.map Prod.fst

/-! ## commands.go -/

/-- First loop of `getFileNameByIDList`: the arguments that parse, in order. -/
def parseIDs (ids : List String) : List Int := ids.filterMap ParseInt

/-- What the goroutine launched for `id` sends on `fileInfoCh`: the file when
`Files.Get` succeeds, nothing otherwise. -/
def lookupSend (api : Remote) (id : Int) : Option File :=
  match api.filesGet id with
  | .ok f => some f
  | .error _ => none

/-- Number of goroutines `getFileNameByIDList` launches. -/
def launchedLookups (ids : List String) : Nat := (parseIDs ids).length

/-- Number of iterations of the receive loop `for range ids`. -/
def awaitedResults (ids : List String) : Nat := ids.length

/-- The method `getFileNameByIDList`; `trim` is `strings.TrimSpace`. -/
def getFileNameByIDList (trim : String → String) (api : Remote) (rt : Runtime)
    (ids : List String) : Outcome FileMap :=
  let idList := parseIDs ids
  let sends := idList.filterMap (lookupSend api)
  match recv (awaitedResults ids) (rt.arrival File sends) with
  | none => .blocked
  | some rs => .returned (rs.foldl (fun m r => FileMap.set m r.ID (trim r.Name)) [])

/-- The `Files.Get` calls made by the goroutines of `getFileNameByIDList`. -/
def lookupEffects (ids : List String) : List Effect := (parseIDs ids).map Effect.get

/-- The function `deleteByIDList`: one batched `Files.Delete` call; `none` is a nil error. -/
def deleteByIDList (api : Remote) (ids : List Int) : Option RemoteError :=
  api.filesDelete ids

/-- The confirmation line of `CommandDelete`. -/
def deletedLine (pal : Palette) (e : Int × String) : String :=
  "[" ++ pal.white.apply (toString e.1) ++ "] -> " ++ pal.red.apply e.2 ++ " deleted\n"

/-- The method `CommandDelete`; `args` is `FlagSetDelete.Args()`. -/
def CommandDelete (trim : String → String) (pal : Palette) (api : Remote) (rt : Runtime)
    (args : List String) : Execution :=
  if args.length = 0 then ⟨[], .returned (some .ErrMissingArgs)⟩
  else
    match getFileNameByIDList trim api rt args with
    | .blocked => ⟨lookupEffects args, .blocked⟩
    | .panicked => ⟨lookupEffects args, .panicked⟩
    | .returned fileNamesMap =>
      let deleteIDS := FileMap.keys (rt.mapRange 0 fileNamesMap)
      if deleteIDS.length > 0 then
        match deleteByIDList api deleteIDS with
        | some e => ⟨lookupEffects args ++ [.delete deleteIDS], .returned (some (.remote e))⟩
        | none =>
          ⟨lookupEffects args ++ [.delete deleteIDS]
              ++ (rt.mapRange 1 fileNamesMap).map (fun e => Effect.out (deletedLine pal e)),
            .returned none⟩
      else ⟨lookupEffects args, .returned none⟩

/-- The loop of `CommandUpload` that fills `needURLS`. -/
def needURLS (urlParse : String → Option URL) (incomingURLs : List String) : List String :=
  incomingURLs.filterMap (fun u =>
    match urlParse u with
    | some p => if p.Scheme ≠ "" then some p.Text else none
    | none => none)

/-- An argument of `upload url` that parses as a URL and has a non-empty scheme. -/
def keptArgument (urlParse : String → Option URL) (u : String) : Bool :=
  match urlParse u with
  | some p => decide (p.Scheme ≠ "")
  | none => false

/-- The text `url.String()` of the URL an argument parses to. -/
def reserialized (urlParse : String → Option URL) (u : String) : String :=
  match urlParse u with
  | some p => p.Text
  | none => u

/-- What the goroutine launched for `url` sends on `transferResults`. -/
def transferSend (api : Remote) (url : String) : resultsChannel :=
  match api.transfersAdd url 0 "" with
  | .ok statusMessage => ⟨statusMessage, none⟩
  | .error (.response message) => ⟨message ++ " for " ++ url, some (.response message)⟩
  | .error (.other text) => ⟨"error for " ++ url, some (.other text)⟩

/-- The line the receive loop of `CommandUpload` prints for loop variable `url` and
received result `r`. -/
def uploadLine (pal : Palette) (url : String) (r : resultsChannel) : String :=
  match r.err with
  | none => pal.yellow.pre ++ "-> [" ++ url ++ "] " ++ r.message ++ "\n" ++ pal.yellow.post
  | some _ => pal.red.pre ++ "-> [" ++ r.message ++ "]\n" ++ pal.red.post

/-- The method `CommandUpload`; `args` is `FlagSetUpload.Args()`. -/
def CommandUpload (urlParse : String → Option URL) (pal : Palette) (api : Remote)
    (rt : Runtime) (args : List String) : Execution :=
  match args with
  | [] => ⟨[], .returned (some .ErrMissingArgs)⟩
  | subcommand :: incomingURLs =>
    if subcommand = "url" then
      if incomingURLs.length = 0 then ⟨[], .returned (some .ErrMissingArgs)⟩
      else
        let urls := needURLS urlParse incomingURLs
        let sends := urls.map (transferSend api)
        match recv urls.length (rt.arrival resultsChannel sends) with
        | none => ⟨urls.map Effect.addTransfer, .blocked⟩
        | some rs =>
          ⟨urls.map Effect.addTransfer
              ++ List.zipWith (fun url r => Effect.out (uploadLine pal url r)) urls rs,
            .returned none⟩
    else ⟨[.stdout ("wrong " ++ subcommand ++ "\n")], .returned none⟩

/-- The confirmation line of `CommandMove` for a moved file named `fileName`;
`targetName` is `fileNamesMap[targetFolder]`. -/
def movedLine (pal : Palette) (targetName : String) (fileName : String) : String :=
  pal.white.apply fileName ++ " moved to -> " ++ pal.boldYellow.apply targetName ++ "\n"

/-- The method `CommandMove`; `args` is `FlagSetMove.Args()`. -/
def CommandMove (trim : String → String) (pal : Palette) (api : Remote) (rt : Runtime)
    (args : List String) : Execution :=
  if args.length < 2 then ⟨[], .returned (some .ErrMissingArgs)⟩
  else
    match getFileNameByIDList trim api rt args with
    | .blocked => ⟨lookupEffects args, .blocked⟩
    | .panicked => ⟨lookupEffects args, .panicked⟩
    | .returned fileNamesMap =>
      match ParseInt (args.getLastD "") with
      | none => ⟨lookupEffects args, .returned (some (.numError (args.getLastD "")))⟩
      | some targetFolder =>
        let sourceIDs :=
          (FileMap.keys (rt.mapRange 0 fileNamesMap)).filter (fun id => id ≠ targetFolder)
        match api.filesMove targetFolder sourceIDs with
        | some e =>
          ⟨lookupEffects args ++ [.move targetFolder sourceIDs], .returned (some (.remote e))⟩
        | none =>
          ⟨lookupEffects args ++ [.move targetFolder sourceIDs]
              ++ ((rt.mapRange 1 fileNamesMap).filter (fun e => e.1 ≠ targetFolder)).map
                  (fun e => Effect.out (movedLine pal (fileNamesMap.get targetFolder) e.2)),
            .returned none⟩

/-! ## ByteCountSI -/

/-- Nearest integer to `n / d`, ties to the even one. -/
def roundHalfEven (n d : Nat) : Nat :=
  let q := n / d
  let r := n % d
  if 2 * r < d then q else if d < 2 * r then q + 1 else if q % 2 = 0 then q else q + 1

/-- Binary logarithm rounded down, by repeated halving. -/
def log2Fuel : Nat → Nat → Nat
  | 0, _ => 0
  | fuel + 1, n => if 2 ≤ n then log2Fuel fuel (n / 2) + 1 else 0

/-- Position of the leading bit of `n`. -/
def ilog2 (n : Nat) : Nat := log2Fuel n n

/-- The conversion `float64(b)` of a non-negative integer: the nearest multiple of
`2 ^ (ilog2 b - 52)`, the spacing of binary64 values around `b`. The result is an integer. -/
def float64OfInt (b : Nat) : Nat :=
  let e := ilog2 b - 52
  roundHalfEven b (2 ^ e) * 2 ^ e

/-- A non-negative finite binary64 value, as the fraction `num / den`. -/
structure Float64 where
  num : Nat
  den : Nat
deriving DecidableEq

/-- The binary64 quotient `x / y` of two integer-valued positive binary64 numbers: the
exact quotient rounded to 53 significant bits. -/
def float64Div (x y : Nat) : Float64 :=
  if x = 0 then ⟨0, 1⟩
  else if y ≤ x then
    let E := ilog2 (x / y)
    if E ≤ 52 then ⟨roundHalfEven (x * 2 ^ (52 - E)) y, 2 ^ (52 - E)⟩
    else ⟨roundHalfEven x (y * 2 ^ (E - 52)) * 2 ^ (E - 52), 1⟩
  else
    let j0 := ilog2 y - ilog2 x
    let j := if y ≤ x * 2 ^ j0 then j0 else j0 + 1
    ⟨roundHalfEven (x * 2 ^ (52 + j)) y, 2 ^ (52 + j)⟩

/-- The number that `%.1f` displays, in tenths: the exact value rounded to one decimal,
ties to even. -/
def displayedTenths (f : Float64) : Nat := roundHalfEven (10 * f.num) f.den

/-- Text of a number given in tenths, with one decimal place. -/
def showTenths (t : Nat) : String := toString (t / 10) ++ "." ++ toString (t % 10)

/-- The verb `%.1f` of `fmt.Sprintf` on a non-negative binary64 value. -/
def formatFixed1 (f : Float64) : String := showTenths (displayedTenths f)

/-- The loop `for n := b / unit; n >= unit; n /= unit` of `ByteCountSI`, with the values of
`div` and `exp` at its exit; `none` when the fuel runs out before the loop exits. -/
def sizeLoop : Nat → Nat → Nat → Nat → Option (Nat × Nat)
  | 0, _, _, _ => none
  | fuel + 1, n, div, exp =>
    if 1000 ≤ n then sizeLoop fuel (n / 1000) (div * 1000) (exp + 1) else some (div, exp)

/-- The method `ByteCountSI` on an int64 `b`; `none` when the index into `"kMGTPE"` is out
of range (a run-time panic) or the loop does not exit. -/
def ByteCountSI (b : Int) : Option String :=
  if b < 1000 then some (toString b ++ " B")
  else
    match sizeLoop b.toNat (b.toNat / 1000) 1000 0 with
    | none => none
    | some (div, exp) =>
      match "kMGTPE".toList[exp]? with
      | none => none
      | some c =>
        some (formatFixed1 (float64Div (float64OfInt b.toNat) (float64OfInt div))
          ++ " " ++ String.singleton c ++ "B")

/-- The unit names of the size formatter, smallest first: entry `k - 1` is the unit of
`1000 ^ k` bytes. -/
def unitNames : List String := ["kB", "MB", "GB", "TB", "PB", "EB"]

/-! ## CommandList -/

/-- The flags of the `list` subcommand (`-url`, `-id`, `-delete`). -/
structure ListFlags where
  ShowDownloadURL : Bool
  ShowOnlyID : Bool
  DeleteByID : Int

/-- What the goroutine launched for `fileID` sends on `urlResults`. -/
def urlSend (api : Remote) (fileID : Int) : resultsChannel :=
  match api.filesURL fileID false with
  | .ok fileURL => ⟨fileURL, none⟩
  | .error (.response message) =>
    ⟨message ++ " for " ++ toString fileID, some (.response message)⟩
  | .error (.other text) => ⟨"error for " ++ toString fileID, some (.other text)⟩

/-- The writes of the `-id` branch of `CommandList`. -/
def idEffects : List File → List Effect
  | [] => []
  | [f] => [.out (toString f.ID)]
  | f :: rest => .out (toString f.ID) :: .out " " :: idEffects rest

/-- One body row of the table of `CommandList`; `none` when `ByteCountSI` panics. -/
def tableRow (pal : Palette) (file : File) : Option (List String) :=
  match ByteCountSI file.Size with
  | none => none
  | some fileSize =>
    if file.IsDir then
      some [pal.boldWhite.apply (toString file.ID), pal.boldBlue.apply "dir",
        pal.boldBlue.apply file.Name, pal.boldBlue.apply fileSize]
    else some [pal.boldWhite.apply (toString file.ID), "---", file.Name, fileSize]

/-- The folder `CommandList` lists: the first argument when it parses, the root folder 0
otherwise. -/
def listRootDir (args : List String) : Int :=
  match args with
  | [] => 0
  | a :: _ => (ParseInt a).getD 0

/-- The method `CommandList`; `args` is `FlagSetList.Args()`. -/
def CommandList (pal : Palette) (api : Remote) (rt : Runtime) (flags : ListFlags)
    (args : List String) : Execution :=
  let rootDir : Int := listRootDir args
  let before : List Effect × Option RemoteError :=
    if flags.DeleteByID > 0 then
      ([.delete [flags.DeleteByID]], deleteByIDList api [flags.DeleteByID])
    else ([], none)
  match before.2 with
  | some e => ⟨before.1, .returned (some (.remote e))⟩
  | none =>
    match api.filesList rootDir with
    | .error e => ⟨before.1 ++ [.list rootDir], .returned (some (.remote e))⟩
    | .ok (files, parent) =>
      if files.length > 0 then
        if flags.ShowOnlyID then
          ⟨before.1 ++ [.list rootDir] ++ idEffects files ++ [.out "\n"], .returned none⟩
        else if flags.ShowDownloadURL then
          let sends := files.map (fun f => urlSend api f.ID)
          match recv files.length (rt.arrival resultsChannel sends) with
          | none => ⟨before.1 ++ [.list rootDir] ++ files.map (fun f => .url f.ID), .blocked⟩
          | some rs =>
            ⟨before.1 ++ [.list rootDir] ++ files.map (fun f => .url f.ID)
                ++ (rs.filter (fun r => r.err.isNone)).map (fun r => .out (r.message ++ "\n")),
              .returned none⟩
        else
          match files.mapM (tableRow pal) with
          | none => ⟨before.1 ++ [.list rootDir], .panicked⟩
          | some rows =>
            ⟨before.1 ++ [.list rootDir]
                ++ [.table
                    [pal.boldYellow.apply "ID", "", pal.boldYellow.apply ("> " ++ parent.Name),
                      pal.boldYellow.apply "Size"]
                    rows],
              .returned none⟩
      else
        ⟨before.1 ++ [.list rootDir]
            ++ [.out ("sorry, folder: " ++ pal.red.apply parent.Name ++ " is empty\n")],
          .returned none⟩

/-! ## Validate -/

/-- The global flags after `flag.Parse()`; `Token` is the value of `-token`/`-t`, the
empty string when the flag is not given. -/
structure GlobalFlags where
  ColorEnabled : Bool
  Version : Bool
  Token : String

/-- The subcommand flag sets. -/
inductive Subcommand where
  | list
  | upload
  | delete
  | move
deriving DecidableEq

/-- How `Validate` ends: it returns an error or nil, or the process exits. -/
inductive ValidateResult where
  | returned (err : Option CliError)
  | exit (code : Nat)
deriving DecidableEq

/-- An execution of `Validate`: whether it set `color.NoColor`, what it wrote, the access
token the client was built with (if a client was built), the flag set it parsed (if any)
and how it ended. -/
structure ValidateExecution where
  noColor : Bool
  effects : List Effect
  clientToken : Option String
  parsed : Option Subcommand
  result : ValidateResult
deriving DecidableEq

/-- The names of the subcommand flag sets, in the order of `subCommands`. -/
def subCommandNames : List String := ["list", "upload", "delete", "move"]

/-- The function `printSubCommandsUsage` called with an invalid subcommand. -/
def printSubCommandsUsage (invalidCMD : String) : List Effect :=
  [.stdout ("invalid subcommand: " ++ invalidCMD ++ "\n\nvalid commands:\n\n")]
    ++ (subCommandNames.map (fun n => [Effect.stdout ("  " ++ n ++ "\n"), .flagDefaults n])).flatten
    ++ [.stdout "\n"]

/-- The call `FlagSetX.Parse(flag.Args()[1:])` of `Validate` for the flag set `sub`, named
`name`. The flag sets are created with `flag.ExitOnError`: `parseFlagSet sub rest` is
`some code` when `Parse` ends the process with that exit code (2 on a malformed or undefined
flag, 0 on `-h`/`-help`), `none` when `Parse` returns. -/
def parseSubcommand (noColor : Bool) (token : String)
    (parseFlagSet : Subcommand → List String → Option Nat) (sub : Subcommand) (name : String)
    (rest : List String) : ValidateExecution :=
  match parseFlagSet sub rest with
  | some code => ⟨noColor, [.flagFailure name], some token, some sub, .exit code⟩
  | none => ⟨noColor, [], some token, some sub, .returned none⟩

/-- The method `Validate`, from the point where `flag.Parse()` has returned. `flags` are the
parsed global flags, `env` is the result of `os.LookupEnv("PUTIO_TOKEN")`, `validateToken`
is `Client.ValidateToken` for a client built with the given access token, `parseFlagSet` is
`Parse` of a subcommand flag set (see `parseSubcommand`), `args` is `flag.Args()`. -/
def Validate (version : String) (flags : GlobalFlags) (env : Option String)
    (validateToken : String → Except RemoteError (Option Int))
    (parseFlagSet : Subcommand → List String → Option Nat) (args : List String) :
    ValidateExecution :=
  let noColor := !flags.ColorEnabled
  if flags.Version then ⟨noColor, [.out (version ++ "\n")], none, none, .returned none⟩
  else
    let token := match env with
      | some t => t
      | none => flags.Token
    if token = "" then ⟨noColor, [], none, none, .returned (some .ErrPutioTokenRequired)⟩
    else
      match validateToken token with
      | .error e => ⟨noColor, [], some token, none, .returned (some (.remote e))⟩
      | .ok none => ⟨noColor, [], some token, none, .returned (some .ErrPutioTokenInvalid)⟩
      | .ok (some _) =>
        match args with
        | [] => ⟨noColor, [], some token, none, .returned none⟩
        | subcommand :: rest =>
          if subcommand = "list" then
            parseSubcommand noColor token parseFlagSet .list "list" rest
          else if subcommand = "upload" then
            parseSubcommand noColor token parseFlagSet .upload "upload" rest
          else if subcommand = "delete" then
            parseSubcommand noColor token parseFlagSet .delete "delete" rest
          else if subcommand = "move" then
            parseSubcommand noColor token parseFlagSet .move "move" rest
          else ⟨noColor, printSubCommandsUsage subcommand, some token, none, .exit 1⟩

/-! ## Reading a formatted size back -/

/-- The power of 1000 that a unit letter of the size formatter stands for. -/
def unitExponent (c : Char) : Option Nat :=
  if c = 'k' then some 1
  else if c = 'M' then some 2
  else if c = 'G' then some 3
  else if c = 'T' then some 4
  else if c = 'P' then some 5
  else if c = 'E' then some 6
  else none

/-- Reading of a formatted size, following the spec's words (the source has no such
function): the displayed number times the multiplier of the displayed unit, in bytes.
Accepted texts are `<digits> B` and `<digits>.<digit> <letter>B`. -/
def readByteCount (s : String) : Option Nat :=
  let whole := s.toList.takeWhile Char.isDigit
  if whole.isEmpty then none
  else
    match s.toList.dropWhile Char.isDigit with
    | [sp, u] => if sp = ' ' ∧ u = 'B' then some (digitsValue whole) else none
    | [dot, d, sp, c, u] =>
      if dot = '.' ∧ d.isDigit = true ∧ sp = ' ' ∧ u = 'B' then
        match unitExponent c with
        | some k => some (digitsValue whole * 1000 ^ k + (d.toNat - 48) * (1000 ^ k / 10))
        | none => none
      else none
    | _ => none

/-! ## Sample collaborators -/

/-- Values of Go `url.Parse` on a few inputs: the scheme is lower-cased by the parser, so
`String()` of the parsed URL is not always the text that was parsed; `"notaurl"` parses to
a URL without scheme; `":x"` is a parse error (missing protocol scheme). -/
def sampleURLParse (u : String) : Option URL :=
  if u = "http://x" then some ⟨"http", "http://x"⟩
  else if u = "HTTP://x" then some ⟨"http", "http://x"⟩
  else if u = "http://a" then some ⟨"http", "http://a"⟩
  else if u = "http://b" then some ⟨"http", "http://b"⟩
  else if u = "MaIlTo:webmaster@golang.org" then some ⟨"mailto", "mailto:webmaster@golang.org"⟩
  else if u = "notaurl" then some ⟨"", "notaurl"⟩
  else none

/-- A remote on which file 1 is named `a` and folder 7 is named `dir`, every other lookup
fails, every batched call succeeds, every folder is empty, and a transfer for `u` answers
with the status `queued u`. -/
def sampleRemote : Remote where
  filesGet := fun id =>
    if id = 1 then .ok ⟨1, "a", 10, false⟩
    else if id = 7 then .ok ⟨7, "dir", 0, true⟩
    else .error (.response "not found")
  filesDelete := fun _ => none
  filesMove := fun _ _ => none
  filesList := fun _ => .ok ([], ⟨0, "root", 0, true⟩)
  filesURL := fun _ _ => .error (.other "no url")
  transfersAdd := fun u _ _ => .ok ("queued " ++ u)


/-! # Theorems -/

/-! ## Rounding -/

theorem roundHalfEven_ge (n d : Nat) : n / d ≤ roundHalfEven n d := by
  unfold roundHalfEven
  simp only
  split_ifs <;> omega

theorem roundHalfEven_le (n d : Nat) : roundHalfEven n d ≤ n / d + 1 := by
  unfold roundHalfEven
  simp only
  split_ifs <;> omega

theorem roundHalfEven_exact (n d : Nat) (hd : 0 < d) (h : n % d = 0) :
    roundHalfEven n d = n / d := by
  unfold roundHalfEven
  simp only [h]
  rw [if_pos (by omega)]

theorem le_roundHalfEven {n d c : Nat} (hd : 0 < d) (h : c * d ≤ n) :
    c ≤ roundHalfEven n d :=
  le_trans ((Nat.le_div_iff_mul_le hd).2 h) (roundHalfEven_ge n d)

theorem roundHalfEven_le_of_le {n d c : Nat} (hd : 0 < d) (h : n ≤ c * d) :
    roundHalfEven n d ≤ c := by
  by_cases hr : n % d = 0
  · rw [roundHalfEven_exact n d hd hr]
    exact Nat.div_le_of_le_mul (by rw [Nat.mul_comm]; exact h)
  · have hlt : n / d < c := by
      rw [Nat.div_lt_iff_lt_mul hd]
      rcases Nat.lt_or_eq_of_le h with h1 | h1
      · exact h1
      · exact absurd (by rw [h1]; exact Nat.mul_mod_left c d) hr
    have := roundHalfEven_le n d
    omega

theorem log2Fuel_spec : ∀ fuel n : Nat, n ≤ fuel → 0 < n →
    2 ^ log2Fuel fuel n ≤ n ∧ n < 2 ^ (log2Fuel fuel n + 1)
  | 0, n, h, h0 => by omega
  | fuel + 1, n, h, h0 => by
    unfold log2Fuel
    split_ifs with h2
    · have ih := log2Fuel_spec fuel (n / 2) (by omega) (by omega)
      rw [pow_succ, pow_succ]
      rw [pow_succ] at ih
      omega
    · simp
      omega

theorem ilog2_spec (n : Nat) (h : 0 < n) : 2 ^ ilog2 n ≤ n ∧ n < 2 ^ (ilog2 n + 1) :=
  log2Fuel_spec n n le_rfl h

theorem ilog2_lt {n k : Nat} (h : 0 < n) (hk : n < 2 ^ k) : ilog2 n < k := by
  have h1 := (ilog2_spec n h).1
  exact (Nat.pow_lt_pow_iff_right (by norm_num : 1 < 2)).1 (lt_of_le_of_lt h1 hk)

theorem le_ilog2 {n k : Nat} (h : 0 < n) (hk : 2 ^ k ≤ n) : k ≤ ilog2 n := by
  have h1 := (ilog2_spec n h).2
  have := (Nat.pow_lt_pow_iff_right (by norm_num : 1 < 2)).1 (lt_of_le_of_lt hk h1)
  omega

theorem sizeLoop_spec : ∀ fuel n div exp : Nat, n < fuel → 1 ≤ n →
    ∃ j, sizeLoop fuel n div exp = some (div * 1000 ^ j, exp + j) ∧
      1000 ^ j ≤ n ∧ n < 1000 ^ (j + 1)
  | 0, n, _, _, h, _ => by omega
  | fuel + 1, n, div, exp, h, h1 => by
    unfold sizeLoop
    split_ifs with h2
    · obtain ⟨j, hj, hlo, hhi⟩ :=
        sizeLoop_spec fuel (n / 1000) (div * 1000) (exp + 1) (by omega) (by omega)
      refine ⟨j + 1, ?_, ?_, ?_⟩
      · rw [hj]
        congr 2
        · ring
        · ring
      · rw [pow_succ]; omega
      · rw [pow_succ] at hhi ⊢; rw [pow_succ]; omega
    · exact ⟨0, by simp, by simpa using h1, by simpa using (by omega : n < 1000)⟩

/-! ## ByteCountSI -/

theorem byteCountSI_small (b : Int) (h : b < 1000) : ByteCountSI b = some (toString b ++ " B") := by
  unfold ByteCountSI
  rw [if_pos h]

/-- The exit state of the loop for a size of at least 1000 bytes below `2 ^ 63`. -/
theorem sizeLoop_result (n : Nat) (h1 : 1000 ≤ n) (h2 : n < 2 ^ 63) :
    ∃ k, 1 ≤ k ∧ k ≤ 6 ∧ 1000 ^ k ≤ n ∧ n < 1000 ^ (k + 1) ∧
      sizeLoop n (n / 1000) 1000 0 = some (1000 ^ k, k - 1) := by
  obtain ⟨j, hj, hlo, hhi⟩ := sizeLoop_spec n (n / 1000) 1000 0 (by omega) (by omega)
  have hlo2 : 1000 ^ (j + 1) ≤ n := by rw [pow_succ]; omega
  have hhi2 : n < 1000 ^ (j + 1 + 1) := by rw [pow_succ] at hhi ⊢; rw [pow_succ]; omega
  have hj6 : j + 1 ≤ 6 := by
    by_contra hc
    have : 1000 ^ 7 ≤ 1000 ^ (j + 1) := Nat.pow_le_pow_right (by norm_num) (by omega)
    have h7 : (1000 : Nat) ^ 7 = 1000000000000000000000 := by norm_num
    have h63 : (2 : Nat) ^ 63 = 9223372036854775808 := by norm_num
    omega
  refine ⟨j + 1, by omega, hj6, hlo2, hhi2, ?_⟩
  rw [hj]
  congr 2
  · rw [pow_succ]; ring
  · omega

theorem unit_lookup (k : Nat) (h1 : 1 ≤ k) (h6 : k ≤ 6) :
    ∃ c, "kMGTPE".toList[k - 1]? = some c ∧ unitExponent c = some k ∧
      unitNames[k - 1]? = some (String.singleton c ++ "B") := by
  interval_cases k <;> exact ⟨_, rfl, by decide, by decide⟩

theorem byteCountSI_scaled (n : Nat) (h1 : 1000 ≤ n) (h2 : n < 2 ^ 63) :
    ∃ k c, 1 ≤ k ∧ k ≤ 6 ∧ 1000 ^ k ≤ n ∧ n < 1000 ^ (k + 1) ∧ unitExponent c = some k ∧
      unitNames[k - 1]? = some (String.singleton c ++ "B") ∧
      ByteCountSI (n : Int) =
        some (formatFixed1 (float64Div (float64OfInt n) (float64OfInt (1000 ^ k)))
          ++ " " ++ String.singleton c ++ "B") := by
  obtain ⟨k, hk1, hk6, hlo, hhi, hloop⟩ := sizeLoop_result n h1 h2
  obtain ⟨c, hc, hexp, hu⟩ := unit_lookup k hk1 hk6
  refine ⟨k, c, hk1, hk6, hlo, hhi, hexp, hu, ?_⟩
  unfold ByteCountSI
  rw [if_neg (by omega)]
  simp only [Int.toNat_ofNat, hloop, hc]

theorem ilog2_zero : ilog2 0 = 0 := rfl

theorem float64OfInt_small (n : Nat) (h : n < 2 ^ 53) : float64OfInt n = n := by
  have he : ilog2 n - 52 = 0 := by
    rcases Nat.eq_zero_or_pos n with h0 | h0
    · subst h0; rfl
    · have := ilog2_lt h0 h
      omega
  unfold float64OfInt
  simp only [he, pow_zero, Nat.mul_one]
  rw [roundHalfEven_exact n 1 Nat.one_pos (Nat.mod_one n), Nat.div_one]

theorem float64OfInt_grid (n c : Nat) (hn : n < 2 ^ 63) (hc : 2 ^ 10 ∣ c) :
    (c ≤ n → c ≤ float64OfInt n) ∧ (n ≤ c → float64OfInt n ≤ c) := by
  have he : ilog2 n - 52 ≤ 10 := by
    rcases Nat.eq_zero_or_pos n with h0 | h0
    · subst h0; simp [ilog2_zero]
    · have := ilog2_lt h0 hn
      omega
  have hdvd : 2 ^ (ilog2 n - 52) ∣ c := dvd_trans (pow_dvd_pow 2 he) hc
  obtain ⟨c1, rfl⟩ := hdvd
  have hpos : 0 < 2 ^ (ilog2 n - 52) := Nat.pow_pos (by norm_num)
  unfold float64OfInt
  simp only
  constructor
  · intro h
    rw [Nat.mul_comm (2 ^ (ilog2 n - 52)) c1]
    exact Nat.mul_le_mul_right _ (le_roundHalfEven hpos (by rw [Nat.mul_comm]; exact h))
  · intro h
    rw [Nat.mul_comm (2 ^ (ilog2 n - 52)) c1]
    exact Nat.mul_le_mul_right _ (roundHalfEven_le_of_le hpos (by rw [Nat.mul_comm]; exact h))

theorem float64OfInt_unit (k : Nat) (hk : k ≤ 6) : float64OfInt (1000 ^ k) = 1000 ^ k := by
  interval_cases k <;> decide

theorem float64OfInt_between (n k : Nat) (hk : k ≤ 6) (hlo : 1000 ^ k ≤ n)
    (hhi : n < 1000 ^ (k + 1)) (hn : n < 2 ^ 63) :
    1000 ^ k ≤ float64OfInt n ∧ float64OfInt n ≤ 1000 ^ (k + 1) := by
  by_cases hs : n < 2 ^ 53
  · rw [float64OfInt_small n hs]
    exact ⟨hlo, le_of_lt hhi⟩
  · have hk5 : 5 ≤ k := by
      by_contra hc
      have : 1000 ^ (k + 1) ≤ 1000 ^ 5 := Nat.pow_le_pow_right (by norm_num) (by omega)
      have h5 : (1000 : Nat) ^ 5 = 1000000000000000 := by norm_num
      have h53 : (2 : Nat) ^ 53 = 9007199254740992 := by norm_num
      omega
    have hd1 : 2 ^ 10 ∣ 1000 ^ k := by interval_cases k <;> norm_num
    have hd2 : 2 ^ 10 ∣ 1000 ^ (k + 1) := by interval_cases k <;> norm_num
    exact ⟨(float64OfInt_grid n _ hn hd1).1 hlo, (float64OfInt_grid n _ hn hd2).2 (le_of_lt hhi)⟩

theorem float64Div_bounds (x y : Nat) (hy : 0 < y) (hlo : y ≤ x) (hhi : x ≤ 1000 * y) :
    ∃ m s, float64Div x y = ⟨m, 2 ^ s⟩ ∧ 43 ≤ s ∧ s ≤ 52 ∧ m = roundHalfEven (x * 2 ^ s) y ∧
      2 ^ s ≤ m ∧ m ≤ 1000 * 2 ^ s := by
  have hx : x ≠ 0 := by omega
  have hq1 : 0 < x / y := Nat.div_pos hlo hy
  have hq2 : x / y < 2 ^ 10 := by
    have : x / y ≤ 1000 := Nat.div_le_of_le_mul (by rw [Nat.mul_comm]; rw [Nat.mul_comm] at hhi; rw [Nat.mul_comm]; exact hhi)
    have h10 : (2 : Nat) ^ 10 = 1024 := by norm_num
    omega
  have hE : ilog2 (x / y) < 10 := ilog2_lt hq1 hq2
  refine ⟨roundHalfEven (x * 2 ^ (52 - ilog2 (x / y))) y, 52 - ilog2 (x / y), ?_, by omega, by omega, rfl, ?_, ?_⟩
  · unfold float64Div
    rw [if_neg hx, if_pos hlo]
    simp only
    rw [if_pos (by omega)]
  · exact le_roundHalfEven hy (by rw [Nat.mul_comm]; exact Nat.mul_le_mul_right _ hlo)
  · apply roundHalfEven_le_of_le hy
    calc x * 2 ^ (52 - ilog2 (x / y)) ≤ (1000 * y) * 2 ^ (52 - ilog2 (x / y)) :=
          Nat.mul_le_mul_right _ hhi
      _ = 1000 * 2 ^ (52 - ilog2 (x / y)) * y := by ring

theorem displayedTenths_bounds (m s : Nat) (hlo : 2 ^ s ≤ m) (hhi : m ≤ 1000 * 2 ^ s) :
    10 ≤ displayedTenths ⟨m, 2 ^ s⟩ ∧ displayedTenths ⟨m, 2 ^ s⟩ ≤ 10000 := by
  have hpos : 0 < 2 ^ s := Nat.pow_pos (by norm_num)
  unfold displayedTenths
  simp only
  constructor
  · exact le_roundHalfEven hpos (by omega)
  · exact roundHalfEven_le_of_le hpos (by omega)

theorem scaled_tenths_bounds (n k : Nat) (hk : k ≤ 6) (hlo : 1000 ^ k ≤ n)
    (hhi : n < 1000 ^ (k + 1)) (hn : n < 2 ^ 63) :
    10 ≤ displayedTenths (float64Div (float64OfInt n) (float64OfInt (1000 ^ k))) ∧
      displayedTenths (float64Div (float64OfInt n) (float64OfInt (1000 ^ k))) ≤ 10000 := by
  obtain ⟨h1, h2⟩ := float64OfInt_between n k hk hlo hhi hn
  rw [float64OfInt_unit k hk]
  have hy : 0 < 1000 ^ k := Nat.pow_pos (by norm_num)
  obtain ⟨m, s, hms, _, _, _, hm1, hm2⟩ :=
    float64Div_bounds (float64OfInt n) (1000 ^ k) hy h1 (by rw [pow_succ] at h2; omega)
  rw [hms]
  exact displayedTenths_bounds m s hm1 hm2

theorem roundHalfEven_error (n d : Nat) (hd : 0 < d) :
    2 * (roundHalfEven n d * d) ≤ 2 * n + d ∧ 2 * n ≤ 2 * (roundHalfEven n d * d) + d := by
  have h1 := Nat.div_add_mod n d
  have h2 := Nat.mod_lt n hd
  have h3 : (n / d + 1) * d = d * (n / d) + d := by ring
  have h4 : n / d * d = d * (n / d) := by ring
  unfold roundHalfEven
  simp only
  split_ifs
  · rw [h4]; omega
  · rw [h3]; omega
  · rw [h4]; omega
  · rw [h3]; omega

theorem float64OfInt_error (n : Nat) (hn : 0 < n) :
    2 ^ 53 * float64OfInt n ≤ 2 ^ 53 * n + n ∧ 2 ^ 53 * n ≤ 2 ^ 53 * float64OfInt n + n := by
  by_cases hs : n < 2 ^ 53
  · rw [float64OfInt_small n hs]
    omega
  · have hE : 53 ≤ ilog2 n := le_ilog2 hn (by omega)
    have hpos : 0 < 2 ^ (ilog2 n - 52) := Nat.pow_pos (by norm_num)
    have herr := roundHalfEven_error n (2 ^ (ilog2 n - 52)) hpos
    have hlow := (ilog2_spec n hn).1
    have hsplit : 2 ^ ilog2 n = 2 ^ 52 * 2 ^ (ilog2 n - 52) := by
      rw [← pow_add]
      congr 1
      omega
    rw [hsplit] at hlow
    unfold float64OfInt
    simp only
    have h52 : (2 : Nat) ^ 52 = 4503599627370496 := by norm_num
    have h53 : (2 : Nat) ^ 53 = 9007199254740992 := by norm_num
    rw [h52] at hlow
    rw [h53]
    omega

theorem scaled_tenths_accuracy (n k : Nat) (hk : k ≤ 6) (hlo : 1000 ^ k ≤ n)
    (hhi : n < 1000 ^ (k + 1)) (hn : n < 2 ^ 63) :
    |((displayedTenths (float64Div (float64OfInt n) (float64OfInt (1000 ^ k))) : Nat) : ℚ) / 10
        - (n : ℚ) / 1000 ^ k| ≤ 1 / 20 + 1 / 10 ^ 12 := by
  obtain ⟨h1, h2⟩ := float64OfInt_between n k hk hlo hhi hn
  rw [float64OfInt_unit k hk]
  have hy : 0 < 1000 ^ k := Nat.pow_pos (by norm_num)
  have hn0 : 0 < n := lt_of_lt_of_le hy hlo
  obtain ⟨m, s, hms, hs43, _, hm, _, _⟩ :=
    float64Div_bounds (float64OfInt n) (1000 ^ k) hy h1 (by rw [pow_succ] at h2; omega)
  rw [hms]
  have hP : 0 < 2 ^ s := Nat.pow_pos (by norm_num)
  have hP43 : 2 ^ 43 ≤ 2 ^ s := Nat.pow_le_pow_right (by norm_num) hs43
  obtain ⟨e1a, e1b⟩ := float64OfInt_error n hn0
  obtain ⟨e2a, e2b⟩ := roundHalfEven_error (float64OfInt n * 2 ^ s) (1000 ^ k) hy
  obtain ⟨e3a, e3b⟩ := roundHalfEven_error (10 * m) (2 ^ s) hP
  rw [← hm] at e2a e2b
  have ht : displayedTenths ⟨m, 2 ^ s⟩ = roundHalfEven (10 * m) (2 ^ s) := rfl
  rw [ht]
  generalize roundHalfEven (10 * m) (2 ^ s) = t at e3a e3b ⊢
  generalize float64OfInt n = B at e1a e1b e2a e2b
  have hhi2 : n < 1000 * 1000 ^ k := by rw [pow_succ] at hhi; omega
  have hx : ((1000 : ℚ) ^ k) = ((1000 ^ k : Nat) : ℚ) := by norm_cast
  rw [hx]
  generalize (1000 : Nat) ^ k = D at hy hhi2 e2a e2b ⊢
  generalize (2 : Nat) ^ s = P at hP hP43 e2a e2b e3a e3b
  have hDq : (0 : ℚ) < (D : ℚ) := by exact_mod_cast hy
  have hPq : (0 : ℚ) < (P : ℚ) := by exact_mod_cast hP
  have hP43q : (2 : ℚ) ^ 43 ≤ (P : ℚ) := by exact_mod_cast hP43
  have hhiq : (n : ℚ) < 1000 * D := by exact_mod_cast hhi2
  have q1a : (2 : ℚ) ^ 53 * B ≤ 2 ^ 53 * n + n := by exact_mod_cast e1a
  have q1b : (2 : ℚ) ^ 53 * n ≤ 2 ^ 53 * B + n := by exact_mod_cast e1b
  have q2a : (2 : ℚ) * (m * D) ≤ 2 * (B * P) + D := by exact_mod_cast e2a
  have q2b : (2 : ℚ) * (B * P) ≤ 2 * (m * D) + D := by exact_mod_cast e2b
  have q3a : (2 : ℚ) * (t * P) ≤ 2 * (10 * m) + P := by exact_mod_cast e3a
  have q3b : (2 : ℚ) * (10 * m) ≤ 2 * (t * P) + P := by exact_mod_cast e3b
  rw [abs_le]
  have key : (t : ℚ) / 10 - (n : ℚ) / D = ((t : ℚ) * D - 10 * n) / (10 * D) := by
    field_simp
  rw [key]
  have h10D : (0 : ℚ) < 10 * D := by positivity
  have hA : (2 : ℚ) * (t * P) * D ≤ (2 * (10 * m) + P) * D :=
    mul_le_mul_of_nonneg_right q3a hDq.le
  have hB : (2 * (10 * m)) * D ≤ (2 * (t * P) + P) * (D : ℚ) :=
    mul_le_mul_of_nonneg_right q3b hDq.le
  have hC : (2 : ℚ) ^ 53 * B * P ≤ (2 ^ 53 * n + n) * P :=
    mul_le_mul_of_nonneg_right q1a hPq.le
  have hD : (2 : ℚ) ^ 53 * n * P ≤ (2 ^ 53 * B + n) * P :=
    mul_le_mul_of_nonneg_right q1b hPq.le
  have hE : (n : ℚ) * P ≤ 1000 * D * P := mul_le_mul_of_nonneg_right hhiq.le hPq.le
  have hF : (2 : ℚ) ^ 43 * D ≤ P * D := mul_le_mul_of_nonneg_right hP43q hDq.le
  constructor
  · rw [le_div_iff₀ h10D]
    have : (-(1 / 20 + 1 / 10 ^ 12) * (10 * (D : ℚ))) * P ≤ ((t : ℚ) * D - 10 * n) * P := by
      norm_num at hC hD hF ⊢
      linarith
    exact le_of_mul_le_mul_right this hPq
  · rw [div_le_iff₀ h10D]
    have : (((t : ℚ) * D - 10 * n)) * P ≤ ((1 / 20 + 1 / 10 ^ 12) * (10 * (D : ℚ))) * P := by
      norm_num at hC hD hF ⊢
      linarith
    exact le_of_mul_le_mul_right this hPq

/-! ## Decimal text of a natural number -/

theorem digitChar_spec (r : Nat) (h : r < 10) :
    (Nat.digitChar r).isDigit = true ∧ (Nat.digitChar r).toNat - 48 = r := by
  interval_cases r <;> exact ⟨by decide, by decide⟩

theorem digitsValue_append (l : List Char) (c : Char) :
    digitsValue (l ++ [c]) = digitsValue l * 10 + (c.toNat - 48) := by
  unfold digitsValue
  rw [List.foldl_append]
  rfl

theorem toDigitsCore_spec : ∀ fuel n : Nat, n < fuel → ∀ ds : List Char,
    ∃ l, Nat.toDigitsCore 10 fuel n ds = l ++ ds ∧ l ≠ [] ∧
      (∀ c ∈ l, c.isDigit = true) ∧ digitsValue l = n
  | 0, n, h, _ => by omega
  | fuel + 1, n, h, ds => by
    obtain ⟨hd1, hd2⟩ := digitChar_spec (n % 10) (Nat.mod_lt n (by norm_num))
    unfold Nat.toDigitsCore
    simp only
    split_ifs with h0
    · refine ⟨[Nat.digitChar (n % 10)], rfl, by simp, ?_, ?_⟩
      · intro c hc
        rw [List.mem_singleton] at hc
        rw [hc]; exact hd1
      · have := digitsValue_append [] (Nat.digitChar (n % 10))
        simp only [List.nil_append] at this
        rw [this, hd2]
        have : digitsValue [] = 0 := rfl
        rw [this]
        omega
    · obtain ⟨l, hl, _, hdig, hval⟩ :=
        toDigitsCore_spec fuel (n / 10) (by omega) (Nat.digitChar (n % 10) :: ds)
      refine ⟨l ++ [Nat.digitChar (n % 10)], ?_, by simp, ?_, ?_⟩
      · rw [hl]; simp
      · intro c hc
        rcases List.mem_append.1 hc with h1 | h1
        · exact hdig c h1
        · rw [List.mem_singleton] at h1
          rw [h1]; exact hd1
      · rw [digitsValue_append, hval, hd2]
        omega

theorem toString_nat_spec (n : Nat) :
    ∃ l, (toString n).toList = l ∧ l ≠ [] ∧ (∀ c ∈ l, c.isDigit = true) ∧ digitsValue l = n := by
  obtain ⟨l, hl, hne, hdig, hval⟩ := toDigitsCore_spec (n + 1) n (by omega) []
  refine ⟨l, ?_, hne, hdig, hval⟩
  rw [List.append_nil] at hl
  exact hl

theorem toString_digit (r : Nat) (h : r < 10) : (toString r).toList = [Nat.digitChar r] := by
  interval_cases r <;> rfl

theorem span_digits (l rest : List Char) (c : Char) (hl : ∀ x ∈ l, x.isDigit = true)
    (hc : c.isDigit = false) :
    (l ++ c :: rest).takeWhile Char.isDigit = l ∧
      (l ++ c :: rest).dropWhile Char.isDigit = c :: rest := by
  induction l with
  | nil => simp [List.takeWhile, List.dropWhile, hc]
  | cons a l ih =>
    have ha : a.isDigit = true := hl a (List.mem_cons_self a l)
    have ih2 := ih (fun x hx => hl x (List.mem_cons_of_mem a hx))
    simp [List.takeWhile, List.dropWhile, ha, ih2.1, ih2.2]

theorem readByteCount_bytes (n : Nat) : readByteCount (toString n ++ " B") = some n := by
  obtain ⟨l, hl, hne, hdig, hval⟩ := toString_nat_spec n
  have hlist : (toString n ++ " B").toList = l ++ ' ' :: ['B'] := by
    rw [← hl]; simp [String.toList]
  obtain ⟨h1, h2⟩ := span_digits l ['B'] ' ' hdig (by decide)
  unfold readByteCount
  simp only [hlist, h1, h2]
  rw [if_neg (by simpa using hne)]
  simp [hval]

theorem readByteCount_scaled (t k : Nat) (c : Char) (hc : unitExponent c = some k) :
    readByteCount (showTenths t ++ " " ++ String.singleton c ++ "B")
      = some (t / 10 * 1000 ^ k + t % 10 * (1000 ^ k / 10)) := by
  obtain ⟨l, hl, hne, hdig, hval⟩ := toString_nat_spec (t / 10)
  have hr : t % 10 < 10 := Nat.mod_lt t (by norm_num)
  obtain ⟨hd1, hd2⟩ := digitChar_spec (t % 10) hr
  have hlist : (showTenths t ++ " " ++ String.singleton c ++ "B").toList
      = l ++ '.' :: [Nat.digitChar (t % 10), ' ', c, 'B'] := by
    have h2 := toString_digit (t % 10) hr
    simp only [String.toList] at hl h2
    simp [showTenths, String.toList, hl, h2, String.singleton]
  obtain ⟨h1, h2⟩ := span_digits l [Nat.digitChar (t % 10), ' ', c, 'B'] '.' hdig (by decide)
  unfold readByteCount
  simp only [hlist, h1, h2]
  rw [if_neg (by simpa using hne)]
  simp [hd1, hd2, hc, hval]

/-! ## Maps -/

theorem mem_keys_set (m : FileMap) (k : Int) (v : String) (x : Int) :
    x ∈ (FileMap.set m k v).keys ↔ x = k ∨ x ∈ m.keys := by
  induction m with
  | nil => simp [FileMap.set, FileMap.keys]
  | cons e rest ih =>
    obtain ⟨k0, v0⟩ := e
    unfold FileMap.set
    split_ifs with h
    · subst h
      simp [FileMap.keys]
    · simp only [FileMap.keys, List.map_cons, List.mem_cons] at ih ⊢
      rw [ih]
      tauto

theorem nodup_keys_set (m : FileMap) (k : Int) (v : String) (h : m.keys.Nodup) :
    (FileMap.set m k v).keys.Nodup := by
  induction m with
  | nil => simp [FileMap.set, FileMap.keys]
  | cons e rest ih =>
    obtain ⟨k0, v0⟩ := e
    have h' : k0 ∉ FileMap.keys rest ∧ (FileMap.keys rest).Nodup := by
      simpa [FileMap.keys] using h
    unfold FileMap.set
    split_ifs with hk
    · subst hk
      simpa [FileMap.keys] using h
    · have hnot : k0 ∉ (FileMap.set rest k v).keys := by
        rw [mem_keys_set]
        rintro (h1 | h1)
        · exact hk h1
        · exact h'.1 h1
      have := ih h'.2
      simp only [FileMap.keys, List.map_cons, List.nodup_cons] at this hnot ⊢
      exact ⟨hnot, this⟩

theorem mem_set (m : FileMap) (k : Int) (v : String) (e : Int × String)
    (h : e ∈ FileMap.set m k v) : e = (k, v) ∨ e ∈ m := by
  induction m with
  | nil => simpa [FileMap.set] using h
  | cons e0 rest ih =>
    obtain ⟨k0, v0⟩ := e0
    unfold FileMap.set at h
    split_ifs at h with hk
    · rcases List.mem_cons.1 h with h1 | h1
      · exact Or.inl h1
      · exact Or.inr (List.mem_cons_of_mem _ h1)
    · rcases List.mem_cons.1 h with h1 | h1
      · exact Or.inr (by rw [h1]; exact List.mem_cons_self _ _)
      · rcases ih h1 with h2 | h2
        · exact Or.inl h2
        · exact Or.inr (List.mem_cons_of_mem _ h2)

/-- The map built by the receive loop of `getFileNameByIDList` from the received files. -/
theorem collected_map (trim : String → String) : ∀ (rs : List File) (m0 : FileMap),
    m0.keys.Nodup →
    (rs.foldl (fun m r => FileMap.set m r.ID (trim r.Name)) m0).keys.Nodup ∧
    (∀ x, x ∈ (rs.foldl (fun m r => FileMap.set m r.ID (trim r.Name)) m0).keys ↔
      x ∈ m0.keys ∨ ∃ r ∈ rs, r.ID = x) ∧
    (∀ e ∈ rs.foldl (fun m r => FileMap.set m r.ID (trim r.Name)) m0,
      e ∈ m0 ∨ ∃ r ∈ rs, e = (r.ID, trim r.Name))
  | [], m0, h => by simp [h]
  | r :: rs, m0, h => by
    obtain ⟨h1, h2, h3⟩ :=
      collected_map trim rs (FileMap.set m0 r.ID (trim r.Name)) (nodup_keys_set m0 _ _ h)
    simp only [List.foldl_cons]
    refine ⟨h1, ?_, ?_⟩
    · intro x
      rw [h2 x, mem_keys_set]
      constructor
      · rintro ((hx | hx) | ⟨r1, hr1, hx⟩)
        · exact Or.inr ⟨r, List.mem_cons_self _ _, hx.symm⟩
        · exact Or.inl hx
        · exact Or.inr ⟨r1, List.mem_cons_of_mem _ hr1, hx⟩
      · rintro (hx | ⟨r1, hr1, hx⟩)
        · exact Or.inl (Or.inr hx)
        · rcases List.mem_cons.1 hr1 with h4 | h4
          · subst h4
            exact Or.inl (Or.inl hx.symm)
          · exact Or.inr ⟨r1, h4, hx⟩
    · intro e he
      rcases h3 e he with h4 | ⟨r1, hr1, h4⟩
      · rcases mem_set m0 _ _ e h4 with h5 | h5
        · exact Or.inr ⟨r, List.mem_cons_self _ _, h5⟩
        · exact Or.inl h5
      · exact Or.inr ⟨r1, List.mem_cons_of_mem _ hr1, h4⟩

/-! ## The name resolver -/

theorem length_filterMap_eq_iff {α β : Type} (f : α → Option β) (l : List α) :
    (l.filterMap f).length = l.length ↔ ∀ x ∈ l, (f x).isSome = true := by
  induction l with
  | nil => simp
  | cons a l ih =>
    have hle := List.length_filterMap_le f l
    cases hfa : f a with
    | none =>
      simp only [List.filterMap_cons, hfa, List.length_cons, List.mem_cons]
      constructor
      · intro h; omega
      · intro h
        have := h a (Or.inl rfl)
        rw [hfa] at this
        simp at this
    | some b =>
      simp only [List.filterMap_cons, hfa, List.length_cons, List.mem_cons]
      constructor
      · intro h x hx
        rcases hx with hx | hx
        · rw [hx, hfa]; rfl
        · exact ih.1 (by omega) x hx
      · intro h
        have := ih.2 (fun x hx => h x (Or.inr hx))
        omega

theorem lookupSend_eq_some (api : Remote) (id : Int) (f : File) :
    lookupSend api id = some f ↔ api.filesGet id = .ok f := by
  unfold lookupSend
  cases api.filesGet id with
  | ok g => simp
  | error e => simp

/-- Everything the lookup goroutines send: one file per argument that parses and resolves. -/
theorem sends_eq (api : Remote) (ids : List String) :
    (parseIDs ids).filterMap (lookupSend api)
      = ids.filterMap (fun a => (ParseInt a).bind (lookupSend api)) := by
  unfold parseIDs
  rw [List.filterMap_filterMap]

theorem resolver_blocked (trim : String → String) (api : Remote) (rt : Runtime)
    (ids : List String) (hfair : rt.Fair)
    (h : ∃ a ∈ ids, ∀ id, ParseInt a = some id → ∀ f, api.filesGet id ≠ .ok f) :
    getFileNameByIDList trim api rt ids = .blocked := by
  have hlen : ((parseIDs ids).filterMap (lookupSend api)).length < ids.length := by
    rw [sends_eq]
    have hle := List.length_filterMap_le (fun a => (ParseInt a).bind (lookupSend api)) ids
    rcases Nat.lt_or_eq_of_le hle with h1 | h1
    · exact h1
    · exfalso
      obtain ⟨a, ha, hbad⟩ := h
      have := (length_filterMap_eq_iff _ ids).1 h1 a ha
      cases hp : ParseInt a with
      | none => rw [hp] at this; simp at this
      | some id =>
        rw [hp] at this
        simp only [Option.some_bind] at this
        obtain ⟨f, hf⟩ := Option.isSome_iff_exists.1 this
        exact hbad id hp f ((lookupSend_eq_some api id f).1 hf)
  unfold getFileNameByIDList recv awaitedResults
  simp only
  rw [(hfair.1 File _).length_eq, if_neg (by omega)]

theorem resolver_returned (trim : String → String) (api : Remote) (rt : Runtime)
    (ids : List String) (hfair : rt.Fair)
    (h : ∀ a ∈ ids, ∃ id f, ParseInt a = some id ∧ api.filesGet id = .ok f) :
    ∃ m : FileMap, getFileNameByIDList trim api rt ids = .returned m ∧ m.keys.Nodup ∧
      (∀ x, x ∈ m.keys ↔
        ∃ a ∈ ids, ∃ id f, ParseInt a = some id ∧ api.filesGet id = .ok f ∧ f.ID = x) ∧
      (∀ e ∈ m, ∃ a ∈ ids, ∃ id f, ParseInt a = some id ∧ api.filesGet id = .ok f ∧
        e = (f.ID, trim f.Name)) := by
  have hlen : ((parseIDs ids).filterMap (lookupSend api)).length = ids.length := by
    rw [sends_eq, length_filterMap_eq_iff]
    intro a ha
    obtain ⟨id, f, hp, hf⟩ := h a ha
    rw [hp]
    simp only [Option.some_bind]
    rw [(lookupSend_eq_some api id f).2 hf]
    rfl
  have hperm := hfair.1 File ((parseIDs ids).filterMap (lookupSend api))
  have hmem : ∀ r, r ∈ rt.arrival File ((parseIDs ids).filterMap (lookupSend api)) ↔
      ∃ a ∈ ids, ∃ id, ParseInt a = some id ∧ api.filesGet id = .ok r := by
    intro r
    rw [hperm.mem_iff, sends_eq, List.mem_filterMap]
    constructor
    · rintro ⟨a, ha, hr⟩
      cases hp : ParseInt a with
      | none => rw [hp] at hr; simp at hr
      | some id =>
        rw [hp] at hr
        simp only [Option.some_bind] at hr
        exact ⟨a, ha, id, hp, (lookupSend_eq_some api id r).1 hr⟩
    · rintro ⟨a, ha, id, hp, hf⟩
      refine ⟨a, ha, ?_⟩
      rw [hp]
      simp only [Option.some_bind]
      exact (lookupSend_eq_some api id r).2 hf
  obtain ⟨h1, h2, h3⟩ := collected_map trim
    (rt.arrival File ((parseIDs ids).filterMap (lookupSend api))) [] (by simp [FileMap.keys])
  refine ⟨_, ?_, h1, ?_, ?_⟩
  · unfold getFileNameByIDList recv awaitedResults
    simp only
    rw [if_pos (by rw [hperm.length_eq, hlen])]
    simp only
    rw [List.take_of_length_le (by rw [hperm.length_eq, hlen])]
  · intro x
    rw [h2 x]
    constructor
    · rintro (hx | ⟨r, hr, hx⟩)
      · simp [FileMap.keys] at hx
      · obtain ⟨a, ha, id, hp, hf⟩ := (hmem r).1 hr
        exact ⟨a, ha, id, r, hp, hf, hx⟩
    · rintro ⟨a, ha, id, f, hp, hf, hx⟩
      exact Or.inr ⟨f, (hmem f).2 ⟨a, ha, id, hp, hf⟩, hx⟩
  · intro e he
    rcases h3 e he with h4 | ⟨r, hr, h4⟩
    · simp at h4
    · obtain ⟨a, ha, id, hp, hf⟩ := (hmem r).1 hr
      exact ⟨a, ha, id, r, hp, hf, h4⟩

/-! ## Claims about ByteCountSI -/

/-- C8: for `0 ≤ b < 1000` the result is the decimal integer `b` followed by `" B"`; for
`1000 ≤ b < 2 ^ 63` there is a unique `k` with `1000 ^ k ≤ b < 1000 ^ (k + 1)`, it satisfies
`1 ≤ k ≤ 6`, the unit lookup succeeds, and the result is a number with exactly one decimal
digit followed by a space and the `k`-th unit; the number shown is the binary64 quotient of
`b` by `1000 ^ k` rounded to one decimal, within `0.05 + 1e-12` of the exact quotient.
`999` gives `"999 B"`, `1000` gives `"1.0 kB"`, `1500000` gives `"1.5 MB"`. -/
theorem ByteCountSI_format :
    (∀ b : Int, 0 ≤ b → b < 1000 → ByteCountSI b = some (toString b ++ " B")) ∧
    (∀ b : Int, 1000 ≤ b → b < 2 ^ 63 →
      ∃ (k : Nat) (u : String) (t : Nat), 1 ≤ k ∧ k ≤ 6 ∧ (1000 : Int) ^ k ≤ b ∧
        b < (1000 : Int) ^ (k + 1) ∧
        (∀ j : Nat, (1000 : Int) ^ j ≤ b → b < (1000 : Int) ^ (j + 1) → j = k) ∧
        unitNames[k - 1]? = some u ∧
        t = displayedTenths (float64Div (float64OfInt b.toNat) (float64OfInt (1000 ^ k))) ∧
        |(t : ℚ) / 10 - (b : ℚ) / 1000 ^ k| ≤ 1 / 20 + 1 / 10 ^ 12 ∧
        ByteCountSI b = some (toString (t / 10) ++ "." ++ toString (t % 10) ++ " " ++ u)) ∧
    ByteCountSI 999 = some "999 B" ∧ ByteCountSI 1000 = some "1.0 kB" ∧
    ByteCountSI 1500000 = some "1.5 MB" := by
  refine ⟨fun b _ h => byteCountSI_small b h, ?_, by decide, by decide, by decide⟩
  intro b h1 h2
  lift b to ℕ using (by omega)
  have h1n : 1000 ≤ b := by exact_mod_cast h1
  have h2n : b < 2 ^ 63 := by exact_mod_cast h2
  obtain ⟨k, c, hk1, hk6, hlo, hhi, _, hu, hres⟩ := byteCountSI_scaled b h1n h2n
  refine ⟨k, String.singleton c ++ "B", _, hk1, hk6, by exact_mod_cast hlo,
    by exact_mod_cast hhi, ?_, hu, rfl, ?_, ?_⟩
  · intro j hj1 hj2
    have hj1n : 1000 ^ j ≤ b := by exact_mod_cast hj1
    have hj2n : b < 1000 ^ (j + 1) := by exact_mod_cast hj2
    have a1 := (Nat.pow_lt_pow_iff_right (by norm_num : 1 < 1000)).1 (lt_of_le_of_lt hj1n hhi)
    have a2 := (Nat.pow_lt_pow_iff_right (by norm_num : 1 < 1000)).1 (lt_of_le_of_lt hlo hj2n)
    omega
  · simp only [Int.toNat_ofNat, Int.cast_natCast]
    exact scaled_tenths_accuracy b k hk6 hlo hhi h2n
  · rw [hres]
    simp only [Int.toNat_ofNat, formatFixed1, showTenths, String.append_assoc]

/-- The sizes 999 and 1500000. -/
theorem ByteCountSI_format_witness :
    (0 : Int) ≤ 999 ∧ (999 : Int) < 1000 ∧ ByteCountSI 999 = some (toString (999 : Int) ++ " B") ∧
    (1000 : Int) ≤ 1500000 ∧ (1500000 : Int) < 2 ^ 63 ∧
    ∃ (k : Nat) (u : String) (t : Nat), 1 ≤ k ∧ k ≤ 6 ∧ (1000 : Int) ^ k ≤ 1500000 ∧
        (1500000 : Int) < (1000 : Int) ^ (k + 1) ∧
        (∀ j : Nat, (1000 : Int) ^ j ≤ 1500000 → (1500000 : Int) < (1000 : Int) ^ (j + 1) → j = k) ∧
        unitNames[k - 1]? = some u ∧
        t = displayedTenths
          (float64Div (float64OfInt (1500000 : Int).toNat) (float64OfInt (1000 ^ k))) ∧
        |(t : ℚ) / 10 - ((1500000 : Int) : ℚ) / 1000 ^ k| ≤ 1 / 20 + 1 / 10 ^ 12 ∧
        ByteCountSI 1500000
          = some (toString (t / 10) ++ "." ++ toString (t % 10) ++ " " ++ u) :=
  ⟨by decide, by decide, ByteCountSI_format.1 999 (by decide) (by decide), by decide, by decide,
    ByteCountSI_format.2.1 1500000 (by decide) (by decide)⟩

/-- C9 as stated fails: 999999 bytes are shown as `1000.0 kB`; read back, that is
`1000000 = 1000 ^ 2` bytes, which is not below `1000 ^ (1 + 1)`, and the number shown is not
below 1000. -/
theorem ByteCountSI_read_back_counterexample :
    ByteCountSI 999999 = some "1000.0 kB" ∧ unitNames[1 - 1]? = some "kB" ∧
      readByteCount "1000.0 kB" = some 1000000 ∧ ¬ (1000000 < 1000 ^ (1 + 1)) := by
  decide

/-- C9, amended: for every `0 ≤ b < 2 ^ 63` the formatter returns a text `s`. When
`b < 1000`, `s` is `b` followed by `" B"` and reads back as exactly `b`. When `b ≥ 1000`, `s`
is a number `t / 10` with one decimal and the `k`-th unit, where `1000 ^ k ≤ b < 1000 ^ (k + 1)`,
the number shown is at least 1.0 and at most 1000.0, and `s` reads back as a value `v` with
`1000 ^ k ≤ v ≤ 1000 ^ (k + 1)`. -/
theorem ByteCountSI_read_back (b : Int) (h0 : 0 ≤ b) (h63 : b < 2 ^ 63) :
    ∃ s, ByteCountSI b = some s ∧
      (b < 1000 → s = toString b ++ " B" ∧ readByteCount s = some b.toNat) ∧
      (1000 ≤ b → ∃ (k : Nat) (u : String) (t v : Nat), 1 ≤ k ∧ k ≤ 6 ∧
        (1000 : Int) ^ k ≤ b ∧ b < (1000 : Int) ^ (k + 1) ∧ unitNames[k - 1]? = some u ∧
        s = showTenths t ++ " " ++ u ∧ 10 ≤ t ∧ t ≤ 10000 ∧
        readByteCount s = some v ∧ 1000 ^ k ≤ v ∧ v ≤ 1000 ^ (k + 1)) := by
  lift b to ℕ using h0
  have h63n : b < 2 ^ 63 := by exact_mod_cast h63
  by_cases hb : b < 1000
  · refine ⟨toString ((b : ℕ) : ℤ) ++ " B", byteCountSI_small _ (by exact_mod_cast hb), ?_, ?_⟩
    · intro _
      refine ⟨rfl, ?_⟩
      rw [Int.toNat_ofNat]
      exact readByteCount_bytes b
    · intro h
      have : 1000 ≤ b := by exact_mod_cast h
      omega
  · have h1n : 1000 ≤ b := by omega
    obtain ⟨k, c, hk1, hk6, hlo, hhi, hexp, hu, hres⟩ := byteCountSI_scaled b h1n h63n
    obtain ⟨ht1, ht2⟩ := scaled_tenths_bounds b k hk6 hlo hhi h63n
    refine ⟨_, hres, ?_, ?_⟩
    · intro h
      have : b < 1000 := by exact_mod_cast h
      omega
    · intro _
      refine ⟨k, String.singleton c ++ "B", _, _, hk1, hk6, by exact_mod_cast hlo,
        by exact_mod_cast hhi, hu, ?_, ht1, ht2, readByteCount_scaled _ k c hexp, ?_, ?_⟩
      · simp only [formatFixed1, String.append_assoc]
      · generalize displayedTenths _ = t at ht1 ht2
        obtain ⟨X, hX⟩ : ∃ X, 1000 ^ k = 10 * X := by
          obtain ⟨k1, rfl⟩ : ∃ k1, k = k1 + 1 := ⟨k - 1, by omega⟩
          exact ⟨100 * 1000 ^ k1, by rw [pow_succ]; ring⟩
        rw [hX, Nat.mul_div_cancel_left X (by norm_num : 0 < 10)]
        have h1 := Nat.div_add_mod t 10
        nlinarith [Nat.zero_le X]
      · generalize displayedTenths _ = t at ht1 ht2
        obtain ⟨X, hX⟩ : ∃ X, 1000 ^ k = 10 * X := by
          obtain ⟨k1, rfl⟩ : ∃ k1, k = k1 + 1 := ⟨k - 1, by omega⟩
          exact ⟨100 * 1000 ^ k1, by rw [pow_succ]; ring⟩
        rw [pow_succ, hX, Nat.mul_div_cancel_left X (by norm_num : 0 < 10)]
        have h1 := Nat.div_add_mod t 10
        nlinarith [Nat.zero_le X]

/-- The size 999999, shown as `1000.0 kB`. -/
theorem ByteCountSI_read_back_witness :
    (0 : Int) ≤ 999999 ∧ (999999 : Int) < 2 ^ 63 ∧
    ∃ s, ByteCountSI 999999 = some s ∧
      ((999999 : Int) < 1000 →
        s = toString (999999 : Int) ++ " B" ∧ readByteCount s = some (999999 : Int).toNat) ∧
      ((1000 : Int) ≤ 999999 → ∃ (k : Nat) (u : String) (t v : Nat), 1 ≤ k ∧ k ≤ 6 ∧
        (1000 : Int) ^ k ≤ 999999 ∧ (999999 : Int) < (1000 : Int) ^ (k + 1) ∧
        unitNames[k - 1]? = some u ∧
        s = showTenths t ++ " " ++ u ∧ 10 ≤ t ∧ t ≤ 10000 ∧
        readByteCount s = some v ∧ 1000 ^ k ≤ v ∧ v ≤ 1000 ^ (k + 1)) :=
  ⟨by decide, by decide, ByteCountSI_read_back 999999 (by decide) (by decide)⟩

/-! ## Runtimes -/

theorem fair_inOrder : Runtime.inOrder.Fair :=
  ⟨fun _ l => List.Perm.refl l, fun _ m => List.Perm.refl m⟩

theorem fair_reversed : Runtime.reversed.Fair :=
  ⟨fun _ l => List.reverse_perm l, fun _ m => List.reverse_perm m⟩

/-! ## Claims about the name resolver and CommandDelete -/

/-- C1 (the code does not do this): whenever some argument of `CommandDelete` fails name
resolution (it does not parse, or the remote get-file call for it returns an error), the
receive loop of the resolver waits for a result that is never sent: under every scheduler the
command blocks forever after launching the lookups, issues no delete call and prints no
confirmation line, also when other IDs did resolve. -/
theorem CommandDelete_blocks_on_failed_lookup (trim : String → String) (pal : Palette)
    (api : Remote) (rt : Runtime) (args : List String) (hfair : rt.Fair)
    (hfail : ∃ a ∈ args, ∀ id, ParseInt a = some id → ∀ f, api.filesGet id ≠ .ok f) :
    CommandDelete trim pal api rt args = ⟨lookupEffects args, .blocked⟩ := by
  have hne : args.length ≠ 0 := by
    obtain ⟨a, ha, _⟩ := hfail
    exact fun h => by rw [List.length_eq_zero.1 h] at ha; simp at ha
  unfold CommandDelete
  rw [if_neg hne, resolver_blocked trim api rt args hfair hfail]

/-- Arguments `1`, which resolves, and `2`, whose lookup fails. -/
theorem CommandDelete_blocks_on_failed_lookup_witness :
    Runtime.inOrder.Fair ∧ sampleRemote.filesGet 1 = .ok ⟨1, "a", 10, false⟩ ∧
      (∃ a ∈ ["1", "2"], ∀ id, ParseInt a = some id → ∀ f, sampleRemote.filesGet id ≠ .ok f) ∧
      CommandDelete id Palette.plain sampleRemote Runtime.inOrder ["1", "2"]
        = ⟨[.get 1, .get 2], .blocked⟩ := by
  have hfail : ∃ a ∈ ["1", "2"], ∀ id, ParseInt a = some id →
      ∀ f, sampleRemote.filesGet id ≠ .ok f := by
    refine ⟨"2", by simp, ?_⟩
    intro id hp f
    have h2 : ParseInt "2" = some 2 := by decide
    rw [h2] at hp
    cases hp
    simp [sampleRemote]
  exact ⟨fair_inOrder, rfl, hfail,
    (CommandDelete_blocks_on_failed_lookup id Palette.plain sampleRemote Runtime.inOrder
      ["1", "2"] fair_inOrder hfail).trans (by decide)⟩

/-- C2 (the code does not do this): the receive loop of `getFileNameByIDList` runs once per
argument, not once per launched lookup. When some argument does not parse, it awaits more
results than the number of lookups launched, and the resolver blocks forever whatever the
remote answers. -/
theorem resolver_awaits_every_argument (trim : String → String) (api : Remote)
    (rt : Runtime) (ids : List String) (hfair : rt.Fair)
    (hbad : ∃ a ∈ ids, ParseInt a = none) :
    awaitedResults ids = ids.length ∧ launchedLookups ids < awaitedResults ids ∧
      getFileNameByIDList trim api rt ids = .blocked := by
  refine ⟨rfl, ?_, ?_⟩
  · unfold launchedLookups awaitedResults parseIDs
    have hle := List.length_filterMap_le ParseInt ids
    rcases Nat.lt_or_eq_of_le hle with h1 | h1
    · exact h1
    · exfalso
      obtain ⟨a, ha, hp⟩ := hbad
      have := (length_filterMap_eq_iff _ ids).1 h1 a ha
      rw [hp] at this
      simp at this
  · obtain ⟨a, ha, hp⟩ := hbad
    exact resolver_blocked trim api rt ids hfair
      ⟨a, ha, fun id hid => by rw [hp] at hid; cases hid⟩

/-- Arguments `1` and `abc`: one lookup is launched, two results are awaited. -/
theorem resolver_awaits_every_argument_witness :
    Runtime.inOrder.Fair ∧ (∃ a ∈ ["1", "abc"], ParseInt a = none) ∧
      awaitedResults ["1", "abc"] = 2 ∧ launchedLookups ["1", "abc"] = 1 ∧
      getFileNameByIDList id sampleRemote Runtime.inOrder ["1", "abc"] = .blocked := by
  have hbad : ∃ a ∈ ["1", "abc"], ParseInt a = none := ⟨"abc", by simp, by decide⟩
  exact ⟨fair_inOrder, hbad, by decide, by decide,
    (resolver_awaits_every_argument id sampleRemote Runtime.inOrder ["1", "abc"]
      fair_inOrder hbad).2.2⟩

/-- C3 (the code does not do this): when no argument of `CommandDelete` resolves, the command
does not return: under every scheduler it blocks forever in the resolver. -/
theorem CommandDelete_blocks_when_nothing_resolves (trim : String → String) (pal : Palette)
    (api : Remote) (rt : Runtime) (args : List String) (hfair : rt.Fair)
    (hne : args ≠ [])
    (hnone : ∀ a ∈ args, ∀ id, ParseInt a = some id → ∀ f, api.filesGet id ≠ .ok f) :
    CommandDelete trim pal api rt args = ⟨lookupEffects args, .blocked⟩ := by
  obtain ⟨a, rest, rfl⟩ := List.exists_cons_of_ne_nil hne
  unfold CommandDelete
  rw [if_neg (by simp), resolver_blocked trim api rt (a :: rest) hfair
    ⟨a, List.mem_cons_self _ _, hnone a (List.mem_cons_self _ _)⟩]

/-- The single argument `2`, whose lookup fails. -/
theorem CommandDelete_blocks_when_nothing_resolves_witness :
    Runtime.inOrder.Fair ∧ ["2"] ≠ [] ∧
      (∀ a ∈ ["2"], ∀ id, ParseInt a = some id → ∀ f, sampleRemote.filesGet id ≠ .ok f) ∧
      CommandDelete id Palette.plain sampleRemote Runtime.inOrder ["2"]
        = ⟨[.get 2], .blocked⟩ := by
  have hnone : ∀ a ∈ ["2"], ∀ id, ParseInt a = some id →
      ∀ f, sampleRemote.filesGet id ≠ .ok f := by
    intro a ha id hp f
    rw [List.mem_singleton] at ha
    subst ha
    have h2 : ParseInt "2" = some 2 := by decide
    rw [h2] at hp
    cases hp
    simp [sampleRemote]
  exact ⟨fair_inOrder, by simp, hnone,
    (CommandDelete_blocks_when_nothing_resolves id Palette.plain sampleRemote Runtime.inOrder
      ["2"] fair_inOrder (by simp) hnone).trans (by decide)⟩

/-- When every argument of `CommandDelete` parses and resolves, then under every runtime
the command issues one batched delete call, for the distinct IDs of the resolved files
(a duplicated argument appears once), and after a successful delete writes one confirmation
line per resolved id/name pair. -/
theorem CommandDelete_all_resolved (trim : String → String) (pal : Palette)
    (api : Remote) (rt : Runtime) (args : List String) (hfair : rt.Fair)
    (hne : args ≠ [])
    (hall : ∀ a ∈ args, ∃ id f, ParseInt a = some id ∧ api.filesGet id = .ok f) :
    ∃ (deleteIDS : List Int) (named : List (Int × String)),
      deleteIDS ≠ [] ∧ deleteIDS.Nodup ∧
      (∀ x, x ∈ deleteIDS ↔
        ∃ a ∈ args, ∃ id f, ParseInt a = some id ∧ api.filesGet id = .ok f ∧ f.ID = x) ∧
      (named.map Prod.fst).Perm deleteIDS ∧
      (∀ e ∈ named, ∃ a ∈ args, ∃ id f, ParseInt a = some id ∧ api.filesGet id = .ok f ∧
        e = (f.ID, trim f.Name)) ∧
      (api.filesDelete deleteIDS = none →
        CommandDelete trim pal api rt args
          = ⟨lookupEffects args ++ [.delete deleteIDS]
              ++ named.map (fun e => Effect.out (deletedLine pal e)), .returned none⟩) ∧
      (∀ e, api.filesDelete deleteIDS = some e →
        CommandDelete trim pal api rt args
          = ⟨lookupEffects args ++ [.delete deleteIDS], .returned (some (.remote e))⟩) := by
  obtain ⟨m, hm, hnd, hkeys, hent⟩ := resolver_returned trim api rt args hfair hall
  obtain ⟨a, rest, rfl⟩ := List.exists_cons_of_ne_nil hne
  have hp0 : (FileMap.keys (rt.mapRange 0 m)).Perm m.keys := (hfair.2 0 m).map _
  have hp1 : (FileMap.keys (rt.mapRange 1 m)).Perm m.keys := (hfair.2 1 m).map _
  have hkne : FileMap.keys (rt.mapRange 0 m) ≠ [] := by
    obtain ⟨id, f, hp, hf⟩ := hall a (List.mem_cons_self _ _)
    have : f.ID ∈ m.keys := (hkeys f.ID).2 ⟨a, List.mem_cons_self _ _, id, f, hp, hf, rfl⟩
    exact List.ne_nil_of_mem (hp0.mem_iff.2 this)
  have hpos : (FileMap.keys (rt.mapRange 0 m)).length > 0 := List.length_pos.2 hkne
  refine ⟨FileMap.keys (rt.mapRange 0 m), rt.mapRange 1 m, hkne, hp0.nodup_iff.2 hnd, ?_,
    hp1.trans hp0.symm, ?_, ?_, ?_⟩
  · intro x
    rw [hp0.mem_iff, hkeys x]
  · intro e he
    exact hent e ((hfair.2 1 m).mem_iff.1 he)
  · intro hdel
    unfold CommandDelete
    rw [if_neg (by simp), hm]
    simp only
    rw [if_pos hpos]
    unfold deleteByIDList
    rw [hdel]
  · intro e hdel
    unfold CommandDelete
    rw [if_neg (by simp), hm]
    simp only
    rw [if_pos hpos]
    unfold deleteByIDList
    rw [hdel]

/-! ## Claims about CommandMove -/

/-- For every argument list of `CommandMove` with at least two arguments whose last
argument parses as `d`, under every runtime, every move call the command issues has target
`d` and does not have `d` among the moved IDs. When moreover every argument parses and
resolves, the command issues exactly one move call; the IDs passed are distinct and are
exactly the IDs of the resolved files other than `d`, also when `d` is among the source
arguments; after a successful move one confirmation line is written per moved file and none
for `d`; after a failed move nothing is written. -/
theorem CommandMove_excludes_target (trim : String → String) (pal : Palette)
    (api : Remote) (rt : Runtime) (args : List String) (d : Int) (hfair : rt.Fair)
    (hlen : 2 ≤ args.length) (hd : ParseInt (args.getLastD "") = some d) :
    (∀ t src, Effect.move t src ∈ (CommandMove trim pal api rt args).effects →
      t = d ∧ d ∉ src) ∧
    ((∀ a ∈ args, ∃ id f, ParseInt a = some id ∧ api.filesGet id = .ok f) →
      ∃ (src : List Int) (moved : List (Int × String)) (targetName : String),
        src.Nodup ∧ d ∉ src ∧
        (∀ x, x ∈ src ↔ x ≠ d ∧
          ∃ a ∈ args, ∃ id f, ParseInt a = some id ∧ api.filesGet id = .ok f ∧ f.ID = x) ∧
        (moved.map Prod.fst).Perm src ∧
        (∀ e ∈ moved, ∃ a ∈ args, ∃ id f, ParseInt a = some id ∧ api.filesGet id = .ok f ∧
          e = (f.ID, trim f.Name)) ∧
        (api.filesMove d src = none →
          CommandMove trim pal api rt args
            = ⟨lookupEffects args ++ [.move d src]
                ++ moved.map (fun e => Effect.out (movedLine pal targetName e.2)),
              .returned none⟩) ∧
        (∀ e, api.filesMove d src = some e →
          CommandMove trim pal api rt args
            = ⟨lookupEffects args ++ [.move d src], .returned (some (.remote e))⟩)) := by
  have main : (∀ a ∈ args, ∃ id f, ParseInt a = some id ∧ api.filesGet id = .ok f) →
      ∃ (src : List Int) (moved : List (Int × String)) (targetName : String),
        src.Nodup ∧ d ∉ src ∧
        (∀ x, x ∈ src ↔ x ≠ d ∧
          ∃ a ∈ args, ∃ id f, ParseInt a = some id ∧ api.filesGet id = .ok f ∧ f.ID = x) ∧
        (moved.map Prod.fst).Perm src ∧
        (∀ e ∈ moved, ∃ a ∈ args, ∃ id f, ParseInt a = some id ∧ api.filesGet id = .ok f ∧
          e = (f.ID, trim f.Name)) ∧
        (api.filesMove d src = none →
          CommandMove trim pal api rt args
            = ⟨lookupEffects args ++ [.move d src]
                ++ moved.map (fun e => Effect.out (movedLine pal targetName e.2)),
              .returned none⟩) ∧
        (∀ e, api.filesMove d src = some e →
          CommandMove trim pal api rt args
            = ⟨lookupEffects args ++ [.move d src], .returned (some (.remote e))⟩) := by
    intro hall
    obtain ⟨m, hm, hnd, hkeys, hent⟩ := resolver_returned trim api rt args hfair hall
    have hp0 : (FileMap.keys (rt.mapRange 0 m)).Perm m.keys := (hfair.2 0 m).map _
    have hmoved : ((rt.mapRange 1 m).filter (fun e => e.1 ≠ d)).map Prod.fst
        = (FileMap.keys (rt.mapRange 1 m)).filter (fun id => id ≠ d) := by
      unfold FileMap.keys
      rw [List.filter_map]
      rfl
    have hp1 : (FileMap.keys (rt.mapRange 1 m)).Perm (FileMap.keys (rt.mapRange 0 m)) :=
      ((hfair.2 1 m).trans (hfair.2 0 m).symm).map _
    refine ⟨(FileMap.keys (rt.mapRange 0 m)).filter (fun id => id ≠ d),
      (rt.mapRange 1 m).filter (fun e => e.1 ≠ d), m.get d, ?_, ?_, ?_, ?_, ?_, ?_, ?_⟩
    · exact (hp0.nodup_iff.2 hnd).filter _
    · simp
    · intro x
      rw [List.mem_filter, hp0.mem_iff, hkeys x]
      simp only [ne_eq, decide_not, Bool.not_eq_eq_eq_not, Bool.not_true,
        decide_eq_false_iff_not]
      tauto
    · rw [hmoved]
      exact hp1.filter _
    · intro e he
      exact hent e ((hfair.2 1 m).mem_iff.1 (List.mem_of_mem_filter he))
    · intro hmove
      unfold CommandMove
      rw [if_neg (by omega), hm]
      simp only [hd]
      rw [hmove]
    · intro e hmove
      unfold CommandMove
      rw [if_neg (by omega), hm]
      simp only [hd]
      rw [hmove]
  refine ⟨?_, main⟩
  intro t src hmem
  by_cases hall : ∀ a ∈ args, ∃ id f, ParseInt a = some id ∧ api.filesGet id = .ok f
  · obtain ⟨src0, moved, targetName, _, hnot, _, _, _, hok, herr⟩ := main hall
    cases hres : api.filesMove d src0 with
    | none =>
      rw [hok hres] at hmem
      simp only [lookupEffects, List.mem_append, List.mem_map, List.mem_singleton,
        Effect.move.injEq, reduceCtorEq, and_false, exists_false, false_or, or_false] at hmem
      obtain ⟨h1, h2⟩ := hmem
      subst h1 h2
      exact ⟨rfl, hnot⟩
    | some e =>
      rw [herr e hres] at hmem
      simp only [lookupEffects, List.mem_append, List.mem_map, List.mem_singleton,
        Effect.move.injEq, reduceCtorEq, and_false, exists_false, false_or] at hmem
      obtain ⟨h1, h2⟩ := hmem
      subst h1 h2
      exact ⟨rfl, hnot⟩
  · exfalso
    have hfail : ∃ a ∈ args, ∀ id, ParseInt a = some id → ∀ f, api.filesGet id ≠ .ok f := by
      by_contra hcon
      apply hall
      intro a ha
      by_contra hno
      apply hcon
      refine ⟨a, ha, fun id hp f hf => hno ⟨id, f, hp, hf⟩⟩
    have hblocked : CommandMove trim pal api rt args = ⟨lookupEffects args, .blocked⟩ := by
      unfold CommandMove
      rw [if_neg (by omega), resolver_blocked trim api rt args hfair hfail]
    rw [hblocked] at hmem
    simp [lookupEffects] at hmem

/-- Arguments `1 7 7` with results and map entries visited in reverse order: folder 7 is
both a source argument and the destination, and only file 1 is moved. -/
theorem CommandMove_excludes_target_witness :
    Runtime.reversed.Fair ∧ 2 ≤ ["1", "7", "7"].length ∧
    ParseInt (["1", "7", "7"].getLastD "") = some 7 ∧
    (∀ a ∈ ["1", "7", "7"], ∃ fid f, ParseInt a = some fid ∧ sampleRemote.filesGet fid = .ok f) ∧
    CommandMove id Palette.plain sampleRemote Runtime.reversed ["1", "7", "7"]
      = ⟨[.get 1, .get 7, .get 7, .move 7 [1], .out "a moved to -> dir\n"], .returned none⟩ ∧
    (∀ t src, Effect.move t src ∈
        (CommandMove id Palette.plain sampleRemote Runtime.reversed ["1", "7", "7"]).effects →
      t = 7 ∧ (7 : Int) ∉ src) ∧
    ∃ (src : List Int) (moved : List (Int × String)) (targetName : String),
      src.Nodup ∧ (7 : Int) ∉ src ∧
      (∀ x, x ∈ src ↔ x ≠ 7 ∧
        ∃ a ∈ ["1", "7", "7"], ∃ fid f, ParseInt a = some fid ∧
          sampleRemote.filesGet fid = .ok f ∧ f.ID = x) ∧
      (moved.map Prod.fst).Perm src ∧
      (∀ e ∈ moved, ∃ a ∈ ["1", "7", "7"], ∃ fid f, ParseInt a = some fid ∧
        sampleRemote.filesGet fid = .ok f ∧ e = (f.ID, id f.Name)) ∧
      (sampleRemote.filesMove 7 src = none →
        CommandMove id Palette.plain sampleRemote Runtime.reversed ["1", "7", "7"]
          = ⟨lookupEffects ["1", "7", "7"] ++ [.move 7 src]
              ++ moved.map (fun e => Effect.out (movedLine Palette.plain targetName e.2)),
            .returned none⟩) ∧
      (∀ e, sampleRemote.filesMove 7 src = some e →
        CommandMove id Palette.plain sampleRemote Runtime.reversed ["1", "7", "7"]
          = ⟨lookupEffects ["1", "7", "7"] ++ [.move 7 src],
            .returned (some (.remote e))⟩) := by
  have hall : ∀ a ∈ ["1", "7", "7"],
      ∃ fid f, ParseInt a = some fid ∧ sampleRemote.filesGet fid = .ok f := by
    intro a ha
    simp only [List.mem_cons, List.mem_singleton, List.not_mem_nil, or_false, or_self] at ha
    rcases ha with rfl | rfl
    · exact ⟨1, _, by decide, rfl⟩
    · exact ⟨7, _, by decide, rfl⟩
  exact ⟨fair_reversed, by decide, by decide, hall, by decide,
    (CommandMove_excludes_target id Palette.plain sampleRemote Runtime.reversed
      ["1", "7", "7"] 7 fair_reversed (by decide) (by decide)).1,
    (CommandMove_excludes_target id Palette.plain sampleRemote Runtime.reversed
      ["1", "7", "7"] 7 fair_reversed (by decide) (by decide)).2 hall⟩

/-- C4 (the code does not do this): take an argument list of `CommandMove` with at least two
arguments whose last argument parses as `d` and whose launched lookups all succeed. When
some source argument does not parse, no lookup is launched for it, yet the receive loop of
the resolver still awaits one result per argument: under every runtime the command blocks
forever after launching the lookups and issues no move call at all, so the resolved IDs
other than `d` are never moved. -/
theorem CommandMove_blocks_on_unparsed_source (trim : String → String) (pal : Palette)
    (api : Remote) (rt : Runtime) (args : List String) (d : Int) (hfair : rt.Fair)
    (hlen : 2 ≤ args.length) (_hd : ParseInt (args.getLastD "") = some d)
    (_hok : ∀ id ∈ parseIDs args, ∃ f, api.filesGet id = .ok f)
    (hbad : ∃ a ∈ args, ParseInt a = none) :
    launchedLookups args < awaitedResults args ∧
    CommandMove trim pal api rt args = ⟨lookupEffects args, .blocked⟩ ∧
    ∀ t src, Effect.move t src ∉ (CommandMove trim pal api rt args).effects := by
  have hblocked : CommandMove trim pal api rt args = ⟨lookupEffects args, .blocked⟩ := by
    obtain ⟨a, ha, hp⟩ := hbad
    unfold CommandMove
    rw [if_neg (by omega), resolver_blocked trim api rt args hfair
      ⟨a, ha, fun id hid => by rw [hp] at hid; cases hid⟩]
  refine ⟨?_, hblocked, ?_⟩
  · unfold launchedLookups awaitedResults parseIDs
    have hle := List.length_filterMap_le ParseInt args
    rcases Nat.lt_or_eq_of_le hle with h1 | h1
    · exact h1
    · exfalso
      obtain ⟨a, ha, hp⟩ := hbad
      have := (length_filterMap_eq_iff _ args).1 h1 a ha
      rw [hp] at this
      simp at this
  · intro t src hmem
    rw [hblocked] at hmem
    simp [lookupEffects] at hmem

/-- Arguments `abc 1 7`: the lookups of file 1 and folder 7 are launched and both succeed,
three results are awaited, and no move call is made. -/
theorem CommandMove_blocks_on_unparsed_source_witness :
    Runtime.inOrder.Fair ∧ 2 ≤ ["abc", "1", "7"].length ∧
    ParseInt (["abc", "1", "7"].getLastD "") = some 7 ∧
    (∀ fid ∈ parseIDs ["abc", "1", "7"], ∃ f, sampleRemote.filesGet fid = .ok f) ∧
    (∃ a ∈ ["abc", "1", "7"], ParseInt a = none) ∧
    launchedLookups ["abc", "1", "7"] = 2 ∧ awaitedResults ["abc", "1", "7"] = 3 ∧
    CommandMove id Palette.plain sampleRemote Runtime.inOrder ["abc", "1", "7"]
      = ⟨[.get 1, .get 7], .blocked⟩ := by
  have hok : ∀ fid ∈ parseIDs ["abc", "1", "7"], ∃ f, sampleRemote.filesGet fid = .ok f := by
    have hp : parseIDs ["abc", "1", "7"] = [1, 7] := by decide
    intro fid hfid
    rw [hp] at hfid
    simp only [List.mem_cons, List.mem_singleton, List.not_mem_nil, or_false] at hfid
    rcases hfid with rfl | rfl
    · exact ⟨_, rfl⟩
    · exact ⟨_, rfl⟩
  have hbad : ∃ a ∈ ["abc", "1", "7"], ParseInt a = none := ⟨"abc", by simp, by decide⟩
  exact ⟨fair_inOrder, by decide, by decide, hok, hbad, by decide, by decide,
    (CommandMove_blocks_on_unparsed_source id Palette.plain sampleRemote Runtime.inOrder
      ["abc", "1", "7"] 7 fair_inOrder (by decide) (by decide) hok hbad).2.1.trans
      (by decide)⟩

/-! ## Claims about CommandUpload -/

theorem needURLS_eq (urlParse : String → Option URL) (l : List String) :
    needURLS urlParse l = (l.filter (keptArgument urlParse)).map (reserialized urlParse) := by
  induction l with
  | nil => rfl
  | cons u l ih =>
    unfold needURLS at ih ⊢
    rw [List.filterMap_cons, List.filter_cons, ih]
    unfold keptArgument reserialized
    cases hp : urlParse u with
    | none => simp
    | some p =>
      by_cases hs : p.Scheme = ""
      · simp [hs]
      · simp [hs, hp]

/-- C5 as stated fails: the argument `HTTP://x` parses as a URL with scheme `http` and is
kept, but the URL submitted as a transfer is `http://x`, the text of the parsed URL, not the
argument. -/
theorem CommandUpload_submits_arguments_counterexample :
    keptArgument sampleURLParse "HTTP://x" = true ∧
      CommandUpload sampleURLParse Palette.plain sampleRemote Runtime.inOrder ["url", "HTTP://x"]
        = ⟨[.addTransfer "http://x", .out "-> [http://x] queued http://x\n"], .returned none⟩ ∧
      needURLS sampleURLParse ["HTTP://x"] ≠ ["HTTP://x"].filter (keptArgument sampleURLParse) := by
  decide

/-- C5, amended: for every non-empty list of arguments following `url`, the URLs
`CommandUpload` submits as transfers are the `String()` texts of the parsed URLs of exactly
those arguments that parse as a URL and have a non-empty scheme, in their original order;
the command writes one line per submitted URL and returns no error, so every other argument
is dropped without a transfer call, an output line or an error. With the sample parser
`notaurl` is dropped and `http://x` is kept. -/
theorem CommandUpload_submits_kept_urls (urlParse : String → Option URL) (pal : Palette)
    (api : Remote) (rt : Runtime) (incomingURLs : List String) (hfair : rt.Fair)
    (hne : incomingURLs ≠ []) :
    needURLS urlParse incomingURLs
      = (incomingURLs.filter (keptArgument urlParse)).map (reserialized urlParse) ∧
    (∃ lines : List String,
      lines.length = (incomingURLs.filter (keptArgument urlParse)).length ∧
      CommandUpload urlParse pal api rt ("url" :: incomingURLs)
        = ⟨(needURLS urlParse incomingURLs).map Effect.addTransfer ++ lines.map Effect.out,
          .returned none⟩) ∧
    needURLS sampleURLParse ["notaurl", "http://x"] = ["http://x"] := by
  refine ⟨needURLS_eq urlParse incomingURLs, ?_, by decide⟩
  have hlen : (rt.arrival resultsChannel
      ((needURLS urlParse incomingURLs).map (transferSend api))).length
      = (needURLS urlParse incomingURLs).length := by
    rw [(hfair.1 _ _).length_eq, List.length_map]
  refine ⟨List.zipWith (uploadLine pal) (needURLS urlParse incomingURLs)
    (rt.arrival resultsChannel ((needURLS urlParse incomingURLs).map (transferSend api))),
    ?_, ?_⟩
  · rw [List.length_zipWith, hlen, Nat.min_self, needURLS_eq, List.length_map]
  · unfold CommandUpload
    simp only
    rw [if_pos True.intro, if_neg (by simpa using hne)]
    unfold recv
    rw [if_pos (by rw [hlen])]
    simp only
    rw [List.take_of_length_le (by rw [hlen]), List.map_zipWith]

/-- Arguments `url notaurl http://x` with results arriving in launch order. -/
theorem CommandUpload_submits_kept_urls_witness :
    Runtime.inOrder.Fair ∧ ["notaurl", "http://x"] ≠ [] ∧
    CommandUpload sampleURLParse Palette.plain sampleRemote Runtime.inOrder
        ["url", "notaurl", "http://x"]
      = ⟨[.addTransfer "http://x", .out "-> [http://x] queued http://x\n"], .returned none⟩ ∧
    ∃ lines : List String,
      lines.length = (["notaurl", "http://x"].filter (keptArgument sampleURLParse)).length ∧
      CommandUpload sampleURLParse Palette.plain sampleRemote Runtime.inOrder
          ("url" :: ["notaurl", "http://x"])
        = ⟨(needURLS sampleURLParse ["notaurl", "http://x"]).map Effect.addTransfer
            ++ lines.map Effect.out, .returned none⟩ :=
  ⟨fair_inOrder, by decide, by decide,
    (CommandUpload_submits_kept_urls sampleURLParse Palette.plain sampleRemote Runtime.inOrder
      ["notaurl", "http://x"] fair_inOrder (by decide)).2.1⟩

/-- C6 (the code does not do this): the receive loop of `CommandUpload` prints the `i`-th
URL of its list next to the `i`-th result to arrive. With URLs `http://a` and `http://b`,
both transfers succeeding and the result for `http://b` arriving first, the line for
`http://a` shows the status message of the transfer submitted for `http://b`, and the line
for `http://b` that of `http://a`. -/
theorem CommandUpload_pairs_by_arrival :
    Runtime.reversed.Fair ∧
    transferSend sampleRemote "http://a" = ⟨"queued http://a", none⟩ ∧
    transferSend sampleRemote "http://b" = ⟨"queued http://b", none⟩ ∧
    CommandUpload sampleURLParse Palette.plain sampleRemote Runtime.reversed
        ["url", "http://a", "http://b"]
      = ⟨[.addTransfer "http://a", .addTransfer "http://b",
          .out "-> [http://a] queued http://b\n", .out "-> [http://b] queued http://a\n"],
        .returned none⟩ :=
  ⟨fair_reversed, by decide, by decide, by decide⟩

/-! ## Claims about Validate -/

/-- C7 (the code does not do this): when `PUTIO_TOKEN` is set to a non-empty value,
`Validate` builds the client with the environment value, whatever token the `-token`/`-t`
flag gives: the environment overrides the flag. -/
theorem Validate_environment_overrides_flag (version : String) (color : Bool)
    (flagToken envToken : String) (validateToken : String → Except RemoteError (Option Int))
    (parseFlagSet : Subcommand → List String → Option Nat)
    (args : List String) (henv : envToken ≠ "") :
    (Validate version ⟨color, false, flagToken⟩ (some envToken) validateToken parseFlagSet
        args).clientToken
      = some envToken := by
  have hsub : ∀ (sub : Subcommand) (name : String) (rest : List String),
      (parseSubcommand (!color) envToken parseFlagSet sub name rest).clientToken
        = some envToken := by
    intro sub name rest
    unfold parseSubcommand
    cases parseFlagSet sub rest <;> rfl
  unfold Validate
  simp only [Bool.false_eq_true, if_false, henv]
  cases validateToken envToken with
  | error e => rfl
  | ok uid =>
    cases uid with
    | none => rfl
    | some u =>
      cases args with
      | nil => rfl
      | cons subcommand rest =>
        simp only
        split_ifs
        · exact hsub _ _ _
        · exact hsub _ _ _
        · exact hsub _ _ _
        · exact hsub _ _ _
        · rfl

/-- Flag token `FLAG` with `PUTIO_TOKEN=ENV`: the client is built with `ENV`. -/
theorem Validate_environment_overrides_flag_witness :
    "ENV" ≠ "" ∧ "FLAG" ≠ "ENV" ∧
    (Validate "v" ⟨false, false, "FLAG"⟩ (some "ENV") (fun _ => .ok (some 1))
        (fun _ _ => none) ["list"]).clientToken
      = some "ENV" :=
  ⟨by decide, by decide,
    Validate_environment_overrides_flag "v" false "FLAG" "ENV" (fun _ => .ok (some 1))
      (fun _ _ => none) ["list"] (by decide)⟩

/-! ## Claims about CommandList -/

/-- C10: when the listing of the folder succeeds with zero children (a delete requested by
`-delete` having succeeded first), then whatever the `-id` and `-url` flags are and under
every scheduler, `CommandList` writes exactly one line, `sorry, folder: <parent name> is
empty`, naming the parent returned by the listing, and returns no error; it launches no
download-URL lookup and renders no table. -/
theorem CommandList_empty_folder (pal : Palette) (api : Remote) (rt : Runtime)
    (flags : ListFlags) (args : List String) (parent : File)
    (hdel : flags.DeleteByID > 0 → api.filesDelete [flags.DeleteByID] = none)
    (hlist : api.filesList (listRootDir args) = .ok ([], parent)) :
    CommandList pal api rt flags args
      = ⟨(if flags.DeleteByID > 0 then [Effect.delete [flags.DeleteByID]] else [])
          ++ [.list (listRootDir args),
            .out ("sorry, folder: " ++ pal.red.apply parent.Name ++ " is empty\n")],
        .returned none⟩ ∧
    (∀ e ∈ (CommandList pal api rt flags args).effects,
      (∀ id, e ≠ .url id) ∧ (∀ h r, e ≠ .table h r) ∧
      (∀ s, e = .out s →
        s = "sorry, folder: " ++ pal.red.apply parent.Name ++ " is empty\n")) := by
  have heq : CommandList pal api rt flags args
      = ⟨(if flags.DeleteByID > 0 then [Effect.delete [flags.DeleteByID]] else [])
          ++ [.list (listRootDir args),
            .out ("sorry, folder: " ++ pal.red.apply parent.Name ++ " is empty\n")],
        .returned none⟩ := by
    unfold CommandList deleteByIDList
    by_cases hpos : flags.DeleteByID > 0
    · simp only [if_pos hpos, hdel hpos, hlist]
      simp
    · simp only [if_neg hpos, hlist]
      simp
  refine ⟨heq, ?_⟩
  rw [heq]
  intro e he
  simp only [List.mem_append, List.mem_cons, List.mem_singleton, List.not_mem_nil, or_false] at he
  rcases he with he | he | he
  · split_ifs at he
    · rw [List.mem_singleton] at he
      subst he
      simp
    · simp at he
  · subst he
    simp
  · subst he
    simp

/-- Listing the empty root folder of the sample remote with both `-id` and `-url` set. -/
theorem CommandList_empty_folder_witness :
    ((-1 : Int) > 0 → sampleRemote.filesDelete [-1] = none) ∧
    sampleRemote.filesList (listRootDir []) = .ok ([], ⟨0, "root", 0, true⟩) ∧
    CommandList Palette.plain sampleRemote Runtime.reversed ⟨true, true, -1⟩ []
      = ⟨[.list 0, .out "sorry, folder: root is empty\n"], .returned none⟩ :=
  ⟨fun _ => rfl, rfl,
    (CommandList_empty_folder Palette.plain sampleRemote Runtime.reversed ⟨true, true, -1⟩ []
      ⟨0, "root", 0, true⟩ (fun _ => rfl) rfl).1.trans (by decide)⟩

end PutioCli
